import Mathlib

/-!
# Verification of the embedded key-value protocol client and its services

This file is a shallow embedding, in Lean 4, of the core of the `rise-web`
repository: the minimal RESP (Redis serialization protocol) client
(`tryParseResp`, `RedisLite.onData`, `RedisLite.rawCommand`,
`RedisLite.onCloseOrError`, the typed command wrappers), the rate limiter
built on it (`incrWithExpiry`, `checkRateLimit`, `enforceRateLimitOrRespond`),
and the ephemeral captcha token store (the captcha issue handler and the
captcha-verification section of the public query handler).

Buffers are lists of bytes (`List Nat`); JavaScript strings that travel on the
wire are kept as byte lists.  Stateful code is embedded by explicit state
passing.  JavaScript `Promise` resolution is embedded as returned values and
explicit outcome lists.
-/

namespace RiseWeb

/-- Decoded RESP reply values, as produced by `tryParseResp` in the source:
simple strings and bulk strings become JS strings (`str`), error replies become
`RedisRespError` objects (`err`), integer replies become JS numbers (`int`,
carrying the double's exact rational value), a `-1` bulk length or `-1` array
count becomes JS `null` (`nil`), and arrays become JS arrays (`arr`). -/
inductive RespValue where
  | str (s : List Nat)
  | err (msg : List Nat)
  | int (n : ℚ)
  | nil
  | arr (elems : List RespValue)

/-- Embeds `readLine` from `tryParseResp` (source `src/unnamed/part_017`,
lines 139–144): `buf.indexOf("\r\n", from)` followed by slicing.  The source
works with an offset into a fixed buffer; here the buffer suffix starting at
that offset is passed directly, and the function returns the line before the
first CRLF together with the bytes after the CRLF. -/
def readLine : List Nat → Option (List Nat × List Nat)
  | [] => none
  | b :: rest =>
    if b = 13 ∧ rest.head? = some 10 then some ([], rest.tail)
    else
      match readLine rest with
      | none => none
      | some (l, r) => some (b :: l, r)

/-- Byte is a decimal digit. -/
def isDigit (b : Nat) : Bool := 48 ≤ b && b ≤ 57

/-! ### The JavaScript `Number()` conversion

`tryParseResp` computes `Number(r.line)` on length and count lines.  The
model below reproduces the ECMAScript string-to-number conversion exactly:
leading/trailing `StrWhiteSpaceChar` (as UTF-8 byte sequences) is trimmed,
the empty string is `+0`, and the remaining characters must form a
`StrNumericLiteral` — a signed decimal literal with optional fraction and
exponent, an unsigned `0x`/`0o`/`0b` literal, or `Infinity` — whose exact
rational value is then rounded to the nearest IEEE-754 binary64
(ties-to-even, overflow to infinity, underflow to zero).  The result is the
double's exact rational value, with `none` standing for the non-finite
results `NaN` and `±Infinity`, which `parseAt` treats alike
(`!Number.isFinite`). -/

/-- Strips one run of leading ECMAScript whitespace, given as UTF-8 bytes:
TAB LF VT FF CR SP, NBSP `C2 A0`, U+1680, U+2000–200A, U+2028 U+2029 U+202F
(`E2 80 xx`), U+205F, U+3000, and the BOM U+FEFF. -/
def trimLeadWs : List Nat → List Nat
  | 9 :: r => trimLeadWs r
  | 10 :: r => trimLeadWs r
  | 11 :: r => trimLeadWs r
  | 12 :: r => trimLeadWs r
  | 13 :: r => trimLeadWs r
  | 32 :: r => trimLeadWs r
  | 194 :: 160 :: r => trimLeadWs r
  | 225 :: 154 :: 128 :: r => trimLeadWs r
  | 226 :: 128 :: b :: r =>
    if (128 ≤ b ∧ b ≤ 138) ∨ b = 168 ∨ b = 169 ∨ b = 175 then trimLeadWs r
    else 226 :: 128 :: b :: r
  | 226 :: 129 :: 159 :: r => trimLeadWs r
  | 227 :: 128 :: 128 :: r => trimLeadWs r
  | 239 :: 187 :: 191 :: r => trimLeadWs r
  | l => l

/-- Strips the same whitespace from the front of a reversed byte list (used
for the trailing trim); the multi-byte sequences appear reversed.  For valid
UTF-8 this agrees with character-level trailing trimming because every lead
byte of a recognised sequence is `≥ 0xC2` and so can never be a continuation
byte of a longer character. -/
def trimRevWs : List Nat → List Nat
  | 9 :: r => trimRevWs r
  | 10 :: r => trimRevWs r
  | 11 :: r => trimRevWs r
  | 12 :: r => trimRevWs r
  | 13 :: r => trimRevWs r
  | 32 :: r => trimRevWs r
  | 160 :: 194 :: r => trimRevWs r
  | 128 :: 154 :: 225 :: r => trimRevWs r
  | b :: 128 :: 226 :: r =>
    if (128 ≤ b ∧ b ≤ 138) ∨ b = 168 ∨ b = 169 ∨ b = 175 then trimRevWs r
    else b :: 128 :: 226 :: r
  | 159 :: 129 :: 226 :: r => trimRevWs r
  | 128 :: 128 :: 227 :: r => trimRevWs r
  | 191 :: 187 :: 239 :: r => trimRevWs r
  | l => l

/-- Value of a decimal-digit byte list (most significant first). -/
def decDigitsVal (l : List Nat) : Nat :=
  l.foldl (fun a b => a * 10 + (b - 48)) 0

/-- Value of one hexadecimal digit byte, `none` for a non-digit. -/
def hexDigitVal (b : Nat) : Option Nat :=
  if 48 ≤ b ∧ b ≤ 57 then some (b - 48)
  else if 97 ≤ b ∧ b ≤ 102 then some (b - 87)
  else if 65 ≤ b ∧ b ≤ 70 then some (b - 55)
  else none

/-- Value of one binary or octal digit byte below the radix. -/
def lowDigitVal (radix b : Nat) : Option Nat :=
  if 48 ≤ b ∧ b < 48 + radix then some (b - 48) else none

/-- Value of a nonempty digit list in the given radix; `none` if empty or any
byte is not a digit. -/
def radixVal (dv : Nat → Option Nat) (radix : Nat) (l : List Nat) : Option Nat :=
  if l = [] then none
  else l.foldl (fun acc b => acc.bind fun a => (dv b).map fun d => a * radix + d)
    (some 0)

/-- Parses an unsigned ECMAScript `StrUnsignedDecimalLiteral` (after sign
removal): `DecimalDigits . DecimalDigits? ExponentPart?`,
`. DecimalDigits ExponentPart?` or `DecimalDigits ExponentPart?`.  Returns
the digit value `n` and the power-of-ten exponent `t` with exact value
`n·10^t`; `none` if the bytes are not such a literal. -/
def parseDecCore (l : List Nat) : Option (Nat × Int) :=
  let ip := l.takeWhile isDigit
  let r1 := l.dropWhile isDigit
  let fp := match r1 with
    | 46 :: r => r.takeWhile isDigit
    | _ => []
  let r2 := match r1 with
    | 46 :: r => r.dropWhile isDigit
    | _ => r1
  if ip = [] ∧ fp = [] then none
  else
    let n := decDigitsVal (ip ++ fp)
    let t0 : Int := -(fp.length : Int)
    match r2 with
    | [] => some (n, t0)
    | e :: r3 =>
      if e = 101 ∨ e = 69 then
        let esign : Int := match r3 with
          | 45 :: _ => -1
          | _ => 1
        let r4 := match r3 with
          | 43 :: r => r
          | 45 :: r => r
          | _ => r3
        let ed := r4.takeWhile isDigit
        if ed = [] ∨ ¬(r4.dropWhile isDigit = []) then none
        else some (n, t0 + esign * (decDigitsVal ed : Int))
      else none

/-- Round-half-to-even of the rational `a / b` (with `b > 0`) to a natural
number. -/
def roundHalfEven (a b : Nat) : Nat :=
  let m0 := a / b
  let r := a % b
  if b < 2 * r then m0 + 1
  else if 2 * r < b then m0
  else if m0 % 2 = 0 then m0 else m0 + 1

/-- Fueled binary logarithm (`log2Fuel n n = Nat.log2 n`); the fuel makes the
halving loop structural so that proofs can evaluate it. -/
def log2Fuel : Nat → Nat → Nat
  | 0, _ => 0
  | f + 1, n => if n ≤ 1 then 0 else log2Fuel f (n / 2) + 1

/-- `⌊log₂ n⌋` for `n > 0`. -/
def natLog2 (n : Nat) : Nat := log2Fuel n n

/-- Whether `num / den ≥ 2^k` (for `num, den > 0`), exactly. -/
def gePow2 (num den : Nat) (k : Int) : Bool :=
  if 0 ≤ k then den * 2 ^ k.toNat ≤ num else den ≤ num * 2 ^ (-k).toNat

/-- Rounds the positive rational `num / den` to the nearest IEEE-754 binary64
(round-half-to-even), returned as its exact rational value: `none` on
overflow to infinity, `some 0` on underflow to zero, subnormals exact. -/
def roundPosF64 (num den : Nat) : Option ℚ :=
  if num = 0 then some 0
  else
    let a : Int := natLog2 num
    let b : Int := natLog2 den
    -- the binade: `e` with `2^e ≤ num/den < 2^(e+1)`
    let e : Int := if gePow2 num den (a - b) then a - b else a - b - 1
    if e < -1022 then
      -- subnormal range: round at fixed scale 2^-1074
      some (mkRat (roundHalfEven (num * 2 ^ 1074) den : Nat) (2 ^ 1074))
    else
      -- normal range: round the 53-bit significand at scale 2^(e-52)
      let s : Int := 52 - e
      let m := if 0 ≤ s then roundHalfEven (num * 2 ^ s.toNat) den
               else roundHalfEven num (den * 2 ^ (-s).toNat)
      let me : Nat × Int := if m = 2 ^ 53 then (2 ^ 52, e + 1) else (m, e)
      if 1023 < me.2 then none
      else if 52 ≤ me.2 then some (mkRat (me.1 * 2 ^ (me.2 - 52).toNat : Nat) 1)
      else some (mkRat (me.1 : Nat) (2 ^ (52 - me.2).toNat))

/-- The UTF-8 bytes of `"Infinity"`. -/
def infinityBytes : List Nat := [73, 110, 102, 105, 110, 105, 116, 121]

/-- Models the JavaScript builtin `Number(line)` used by `tryParseResp` on
length and count lines, where `line` is the UTF-8 bytes of the JS string.
Returns the exact rational value of the resulting double, or `none` when the
result is `NaN` or `±Infinity` (the parser only ever asks `=== -1`, `< 0`,
`Number.isFinite`, integrality and floor, so merging the non-finite results
is faithful; `-0` and `+0` are likewise merged, `-0 < 0` being false). -/
def jsNumber (l : List Nat) : Option ℚ :=
  let t := (trimRevWs (trimLeadWs l).reverse).reverse
  if t = [] then some 0
  else if t = infinityBytes ∨ t = 43 :: infinityBytes then none
  else if t = 45 :: infinityBytes then none
  else
    match t with
    | 48 :: 120 :: ds => (radixVal hexDigitVal 16 ds).bind fun n => roundPosF64 n 1
    | 48 :: 88 :: ds => (radixVal hexDigitVal 16 ds).bind fun n => roundPosF64 n 1
    | 48 :: 111 :: ds => (radixVal (lowDigitVal 8) 8 ds).bind fun n => roundPosF64 n 1
    | 48 :: 79 :: ds => (radixVal (lowDigitVal 8) 8 ds).bind fun n => roundPosF64 n 1
    | 48 :: 98 :: ds => (radixVal (lowDigitVal 2) 2 ds).bind fun n => roundPosF64 n 1
    | 48 :: 66 :: ds => (radixVal (lowDigitVal 2) 2 ds).bind fun n => roundPosF64 n 1
    | 45 :: core =>
      (parseDecCore core).bind fun nt =>
        (if 0 ≤ nt.2 then roundPosF64 (nt.1 * 10 ^ nt.2.toNat) 1
         else roundPosF64 nt.1 (10 ^ (-nt.2).toNat)).map Neg.neg
    | 43 :: core =>
      (parseDecCore core).bind fun nt =>
        if 0 ≤ nt.2 then roundPosF64 (nt.1 * 10 ^ nt.2.toNat) 1
        else roundPosF64 nt.1 (10 ^ (-nt.2).toNat)
    | core =>
      (parseDecCore core).bind fun nt =>
        if 0 ≤ nt.2 then roundPosF64 (nt.1 * 10 ^ nt.2.toNat) 1
        else roundPosF64 nt.1 (10 ^ (-nt.2).toNat)

mutual

/-- Embeds `parseAt` from `tryParseResp` (source lines 146–206).  The source
recurses on offsets into a fixed buffer; here the suffix from the offset is
passed.  The `fuel` argument only makes the recursion structural:
`parseAtFuel (buf.length + 2) buf` computes the same result as the source's
unbounded recursion (each frame consumes at least three bytes, see
`parseAt_fuel_stable`).  `none` is the source's `null`, meaning "incomplete —
wait for more bytes".

The returned `Bool` records whether the consumed byte count is exact
(integral).  A bulk string whose declared length is a positive non-integral
double makes the source's `next = end + 2` fractional; the flag is `false`
there so that consumers can reproduce both uses of that fractional offset:
the top level truncates it (`buf.subarray`), while the array element loop
indexes with it, reads `undefined` and reports incomplete. -/
def parseAtFuel : Nat → List Nat → Option (RespValue × List Nat × Bool)
  | 0, _ => none
  | _ + 1, [] => none
  | fuel + 1, p :: tail =>
    if p = 43 then
      -- Simple string
      match readLine tail with
      | none => none
      | some (line, rest) => some (.str line, rest, true)
    else if p = 45 then
      -- Error
      match readLine tail with
      | none => none
      | some (line, rest) => some (.err line, rest, true)
    else if p = 58 then
      -- Integer: `Number.isFinite(n) ? n : 0`
      match readLine tail with
      | none => none
      | some (line, rest) =>
        match jsNumber line with
        | some n => some (.int n, rest, true)
        | none => some (.int 0, rest, true)
    else if p = 36 then
      -- Bulk string
      match readLine tail with
      | none => none
      | some (line, rest) =>
        match jsNumber line with
        | none => some (.nil, rest, true)       -- `!Number.isFinite(len)`
        | some len =>
          if len = -1 then some (.nil, rest, true)
          else if len < 0 then some (.nil, rest, true)
          else if len.den = 1 then
            -- integral length: `end = r.next + len`, need `end + 2` bytes,
            -- content `subarray(r.next, end)`, consume `end + 2`
            if rest.length < len.num.toNat + 2 then none
            else some (.str (rest.take len.num.toNat),
              rest.drop (len.num.toNat + 2), true)
          else
            -- positive non-integral length `len = ⌊len⌋ + f`, `0 < f < 1`.
            -- With `R := rest.length` (an integer): `buf.length < end + 2`
            -- ⟺ `R < ⌊len⌋ + 2 + f` ⟺ `R < ⌊len⌋ + 3`;
            -- `subarray(r.next, end)` truncates `end`, reading `⌊len⌋` bytes;
            -- `next = end + 2` is fractional: its truncation (the rest below)
            -- drops `⌊len⌋ + 2` bytes, and the `false` flag records the
            -- fraction for consumers that index rather than truncate.
            if rest.length < len.floor.toNat + 3 then none
            else some (.str (rest.take len.floor.toNat),
              rest.drop (len.floor.toNat + 2), false)
    else if p = 42 then
      -- Array
      match readLine tail with
      | none => none
      | some (line, rest) =>
        match jsNumber line with
        | none => some (.arr [], rest, true)    -- `!Number.isFinite(count)`
        | some count =>
          if count = -1 then some (.nil, rest, true)
          else if count < 0 then some (.arr [], rest, true)
          else
            -- `for (i = 0; i < count; i++)` runs `⌈count⌉` times
            match parseManyFuel fuel count.ceil.toNat rest with
            | none => none
            | some (elems, next, ex) => some (.arr elems, next, ex)
    else
      -- Unknown => treat as incomplete
      none

/-- Embeds the element loop of the array branch of `parseAt` (source lines
193–200): parse `n` consecutive elements, failing (incomplete) as soon as any
element is incomplete.  An element whose consumption is inexact (fractional
`next`) makes the loop's following `parseAt(next)` read `buf[next]` as
`undefined` and return incomplete; if it was the last element, the array
itself ends on the fractional offset and inherits the inexact flag. -/
def parseManyFuel : Nat → Nat → List Nat → Option (List RespValue × List Nat × Bool)
  | 0, _, _ => none
  | _ + 1, 0, buf => some ([], buf, true)
  | fuel + 1, n + 1, buf =>
    match parseAtFuel fuel buf with
    | none => none
    | some (v, rest, ex) =>
      if ex then
        match parseManyFuel fuel n rest with
        | none => none
        | some (vs, next, ex2) => some (v :: vs, next, ex2)
      else
        match n with
        | 0 => some ([v], rest, false)
        | _ + 1 => none

end

/-- Embeds `tryParseResp` (source lines 135–211): decode one complete frame
from the front of the buffer, returning the decoded value and the unconsumed
rest, or `none` when the buffer does not yet hold a complete frame.  The
caller keeps `parsed.rest = buf.subarray(parsed.next)`: `subarray` truncates
a fractional `next`, which is exactly the truncated rest `parseAtFuel`
returns, so the exactness flag is dropped here. -/
def tryParseResp (buf : List Nat) : Option (RespValue × List Nat) :=
  if buf.isEmpty then none
  else (parseAtFuel (buf.length + 2) buf).map fun vr => (vr.1, vr.2.1)

/-! ## Basic facts about the codec -/

theorem readLine_length {b l r : List Nat} (h : readLine b = some (l, r)) :
    b.length = l.length + 2 + r.length := by
  induction b generalizing l r with
  | nil => simp [readLine] at h
  | cons x rest ih =>
    rw [readLine] at h
    split at h
    · next hx =>
      simp only [Option.some.injEq, Prod.mk.injEq] at h
      obtain ⟨h1, h2⟩ := h
      subst h1; subst h2
      obtain ⟨-, hh⟩ := hx
      cases rest with
      | nil => simp at hh
      | cons y t => simp only [List.length_cons, List.tail_cons, List.length_nil]; omega
    · split at h
      · exact absurd h (by simp)
      · next l0 r0 hsome =>
        simp only [Option.some.injEq, Prod.mk.injEq] at h
        obtain ⟨h1, h2⟩ := h
        subst h1; subst h2
        have := ih hsome
        simp only [List.length_cons]
        omega

theorem readLine_append {b l r e : List Nat} (h : readLine b = some (l, r)) :
    readLine (b ++ e) = some (l, r ++ e) := by
  induction b generalizing l r with
  | nil => simp [readLine] at h
  | cons x rest ih =>
    rw [readLine] at h
    rw [List.cons_append, readLine]
    split at h
    · next hx =>
      obtain ⟨hx1, hx2⟩ := hx
      cases rest with
      | nil => simp at hx2
      | cons y t =>
        simp only [List.head?_cons, Option.some.injEq] at hx2
        subst hx1; subst hx2
        simp only [Option.some.injEq, Prod.mk.injEq] at h
        obtain ⟨h1, h2⟩ := h
        subst h1; subst h2
        rw [if_pos (by simp)]
        simp
    · next hx =>
      split at h
      · exact absurd h (by simp)
      · next l0 r0 hsome =>
        simp only [Option.some.injEq, Prod.mk.injEq] at h
        obtain ⟨h1, h2⟩ := h
        subst h1; subst h2
        have hne : rest ≠ [] := by
          intro hre; rw [hre] at hsome; simp [readLine] at hsome
        have hcond : ¬(x = 13 ∧ (rest ++ e).head? = some 10) := by
          intro ⟨hc1, hc2⟩
          apply hx
          refine ⟨hc1, ?_⟩
          cases rest with
          | nil => exact absurd rfl hne
          | cons y t => simpa using hc2
        rw [if_neg hcond, ih hsome]

/-- A successfully decoded frame consumes at least one byte (jointly with the
array-element loop, which never lengthens the buffer). -/
theorem parse_length : ∀ fuel : Nat,
    (∀ b v r ex, parseAtFuel fuel b = some (v, r, ex) → r.length < b.length) ∧
    (∀ n b vs r ex, parseManyFuel fuel n b = some (vs, r, ex) → r.length ≤ b.length) := by
  intro fuel
  induction fuel with
  | zero =>
    constructor
    · intro b v r ex h; simp [parseAtFuel] at h
    · intro n b vs r ex h; simp [parseManyFuel] at h
  | succ f ih =>
    obtain ⟨ihAt, ihMany⟩ := ih
    constructor
    · intro b v r ex h
      cases b with
      | nil => simp [parseAtFuel] at h
      | cons p tail =>
        rw [parseAtFuel] at h
        split_ifs at h
        · -- simple string
          split at h
          · simp at h
          · next line rest hr =>
            simp only [Option.some.injEq, Prod.mk.injEq] at h
            obtain ⟨-, rfl, -⟩ := h
            have := readLine_length hr
            simp only [List.length_cons]
            omega
        · -- error
          split at h
          · simp at h
          · next line rest hr =>
            simp only [Option.some.injEq, Prod.mk.injEq] at h
            obtain ⟨-, rfl, -⟩ := h
            have := readLine_length hr
            simp only [List.length_cons]
            omega
        · -- integer
          split at h
          · simp at h
          · next line rest hr =>
            have := readLine_length hr
            split at h <;>
              · simp only [Option.some.injEq, Prod.mk.injEq] at h
                obtain ⟨-, rfl, -⟩ := h
                simp only [List.length_cons]
                omega
        · -- bulk string
          split at h
          · simp at h
          · next line rest hr =>
            have := readLine_length hr
            split at h
            · -- jsNumber = none
              simp only [Option.some.injEq, Prod.mk.injEq] at h
              obtain ⟨-, rfl, -⟩ := h
              simp only [List.length_cons]
              omega
            · next len hn =>
              split_ifs at h
              · simp only [Option.some.injEq, Prod.mk.injEq] at h
                obtain ⟨-, rfl, -⟩ := h
                simp only [List.length_cons]; omega
              · simp only [Option.some.injEq, Prod.mk.injEq] at h
                obtain ⟨-, rfl, -⟩ := h
                simp only [List.length_cons]; omega
              · simp only [Option.some.injEq, Prod.mk.injEq] at h
                obtain ⟨-, rfl, -⟩ := h
                have hd : (rest.drop (len.num.toNat + 2)).length
                    = rest.length - (len.num.toNat + 2) := List.length_drop ..
                simp only [List.length_cons]
                omega
              · simp only [Option.some.injEq, Prod.mk.injEq] at h
                obtain ⟨-, rfl, -⟩ := h
                have hd : (rest.drop (len.floor.toNat + 2)).length
                    = rest.length - (len.floor.toNat + 2) := List.length_drop ..
                simp only [List.length_cons]
                omega
        · -- array
          split at h
          · simp at h
          · next line rest hr =>
            have := readLine_length hr
            split at h
            · simp only [Option.some.injEq, Prod.mk.injEq] at h
              obtain ⟨-, rfl, -⟩ := h
              simp only [List.length_cons]; omega
            · next count hn =>
              split_ifs at h
              · simp only [Option.some.injEq, Prod.mk.injEq] at h
                obtain ⟨-, rfl, -⟩ := h
                simp only [List.length_cons]; omega
              · simp only [Option.some.injEq, Prod.mk.injEq] at h
                obtain ⟨-, rfl, -⟩ := h
                simp only [List.length_cons]; omega
              · split at h
                · simp at h
                · next elems next0 ex0 hm =>
                  simp only [Option.some.injEq, Prod.mk.injEq] at h
                  obtain ⟨-, rfl, -⟩ := h
                  have := ihMany _ _ _ _ _ hm
                  simp only [List.length_cons]
                  omega
    · intro n b vs r ex h
      cases n with
      | zero =>
        rw [parseManyFuel] at h
        simp only [Option.some.injEq, Prod.mk.injEq] at h
        obtain ⟨-, rfl, -⟩ := h
        exact Nat.le_refl _
      | succ n =>
        rw [parseManyFuel] at h
        split at h
        · simp at h
        · next v0 rest ex0 ha =>
          have h1 := ihAt _ _ _ _ ha
          split at h
          · -- exact consumption: the loop continues
            split at h
            · simp at h
            · next vs0 next0 ex2 hm =>
              simp only [Option.some.injEq, Prod.mk.injEq] at h
              obtain ⟨-, rfl, -⟩ := h
              have h2 := ihMany _ _ _ _ _ hm
              omega
          · -- inexact consumption: only a final element survives
            split at h
            · simp only [Option.some.injEq, Prod.mk.injEq] at h
              obtain ⟨-, rfl, -⟩ := h
              omega
            · simp at h

theorem parseAtFuel_length {f : Nat} {b v r ex} (h : parseAtFuel f b = some (v, r, ex)) :
    r.length < b.length := (parse_length f).1 b v r ex h

/-! ### Branch equations for `parseAtFuel`

These restate the defining equations of `parseAtFuel` one reply type at a
time, keyed on the result of `readLine` and of `jsNumber`, so that later
proofs can dispatch on the branch taken. -/

theorem parseAt_zero (b : List Nat) : parseAtFuel 0 b = none := rfl

theorem parseAt_nil (f : Nat) : parseAtFuel f [] = none := by cases f <;> rfl

theorem parseAt_simple {tail line rest : List Nat} (f : Nat)
    (hr : readLine tail = some (line, rest)) :
    parseAtFuel (f + 1) (43 :: tail) = some (.str line, rest, true) := by
  rw [parseAtFuel]; simp [hr]

theorem parseAt_simple_none {tail : List Nat} (f : Nat) (hr : readLine tail = none) :
    parseAtFuel (f + 1) (43 :: tail) = none := by
  rw [parseAtFuel]; simp [hr]

theorem parseAt_err {tail line rest : List Nat} (f : Nat)
    (hr : readLine tail = some (line, rest)) :
    parseAtFuel (f + 1) (45 :: tail) = some (.err line, rest, true) := by
  rw [parseAtFuel]; simp [hr]

theorem parseAt_err_none {tail : List Nat} (f : Nat) (hr : readLine tail = none) :
    parseAtFuel (f + 1) (45 :: tail) = none := by
  rw [parseAtFuel]; simp [hr]

theorem parseAt_int {tail line rest : List Nat} (f : Nat)
    (hr : readLine tail = some (line, rest)) :
    parseAtFuel (f + 1) (58 :: tail)
      = some (.int ((jsNumber line).getD 0), rest, true) := by
  rw [parseAtFuel]
  cases hn : jsNumber line <;> simp [hr, hn]

theorem parseAt_int_none {tail : List Nat} (f : Nat) (hr : readLine tail = none) :
    parseAtFuel (f + 1) (58 :: tail) = none := by
  rw [parseAtFuel]; simp [hr]

theorem parseAt_bulk_none {tail : List Nat} (f : Nat) (hr : readLine tail = none) :
    parseAtFuel (f + 1) (36 :: tail) = none := by
  rw [parseAtFuel]; simp [hr]

theorem parseAt_bulk_nan {tail line rest : List Nat} (f : Nat)
    (hr : readLine tail = some (line, rest)) (hn : jsNumber line = none) :
    parseAtFuel (f + 1) (36 :: tail) = some (.nil, rest, true) := by
  rw [parseAtFuel]; simp [hr, hn]

theorem parseAt_bulk_neg {tail line rest : List Nat} {len : ℚ} (f : Nat)
    (hr : readLine tail = some (line, rest)) (hn : jsNumber line = some len)
    (hlt : len < 0) :
    parseAtFuel (f + 1) (36 :: tail) = some (.nil, rest, true) := by
  rw [parseAtFuel]
  by_cases h1 : len = -1 <;> simp [hr, hn, h1, hlt]

theorem parseAt_bulk_int_short {tail line rest : List Nat} {len : ℚ} (f : Nat)
    (hr : readLine tail = some (line, rest)) (hn : jsNumber line = some len)
    (hlt : ¬len < 0) (hden : len.den = 1) (hs : rest.length < len.num.toNat + 2) :
    parseAtFuel (f + 1) (36 :: tail) = none := by
  rw [parseAtFuel]
  have h1 : ¬len = -1 := by rintro rfl; exact hlt (by norm_num)
  simp [hr, hn, h1, hlt, hden, hs]

theorem parseAt_bulk_int_ok {tail line rest : List Nat} {len : ℚ} (f : Nat)
    (hr : readLine tail = some (line, rest)) (hn : jsNumber line = some len)
    (hlt : ¬len < 0) (hden : len.den = 1) (hs : ¬rest.length < len.num.toNat + 2) :
    parseAtFuel (f + 1) (36 :: tail)
      = some (.str (rest.take len.num.toNat), rest.drop (len.num.toNat + 2), true) := by
  rw [parseAtFuel]
  have h1 : ¬len = -1 := by rintro rfl; exact hlt (by norm_num)
  simp [hr, hn, h1, hlt, hden, hs]

theorem parseAt_bulk_frac_short {tail line rest : List Nat} {len : ℚ} (f : Nat)
    (hr : readLine tail = some (line, rest)) (hn : jsNumber line = some len)
    (hlt : ¬len < 0) (hden : ¬len.den = 1) (hs : rest.length < len.floor.toNat + 3) :
    parseAtFuel (f + 1) (36 :: tail) = none := by
  rw [parseAtFuel]
  have h1 : ¬len = -1 := by rintro rfl; exact hlt (by norm_num)
  simp [hr, hn, h1, hlt, hden, hs]

theorem parseAt_bulk_frac_ok {tail line rest : List Nat} {len : ℚ} (f : Nat)
    (hr : readLine tail = some (line, rest)) (hn : jsNumber line = some len)
    (hlt : ¬len < 0) (hden : ¬len.den = 1) (hs : ¬rest.length < len.floor.toNat + 3) :
    parseAtFuel (f + 1) (36 :: tail)
      = some (.str (rest.take len.floor.toNat), rest.drop (len.floor.toNat + 2), false) := by
  rw [parseAtFuel]
  have h1 : ¬len = -1 := by rintro rfl; exact hlt (by norm_num)
  simp [hr, hn, h1, hlt, hden, hs]

theorem parseAt_array_none {tail : List Nat} (f : Nat) (hr : readLine tail = none) :
    parseAtFuel (f + 1) (42 :: tail) = none := by
  rw [parseAtFuel]; simp [hr]

theorem parseAt_array_nan {tail line rest : List Nat} (f : Nat)
    (hr : readLine tail = some (line, rest)) (hn : jsNumber line = none) :
    parseAtFuel (f + 1) (42 :: tail) = some (.arr [], rest, true) := by
  rw [parseAtFuel]; simp [hr, hn]

theorem parseAt_array_neg1 {tail line rest : List Nat} (f : Nat)
    (hr : readLine tail = some (line, rest)) (hn : jsNumber line = some (-1)) :
    parseAtFuel (f + 1) (42 :: tail) = some (.nil, rest, true) := by
  rw [parseAtFuel]; simp [hr, hn]

theorem parseAt_array_neg {tail line rest : List Nat} {count : ℚ} (f : Nat)
    (hr : readLine tail = some (line, rest)) (hn : jsNumber line = some count)
    (h1 : count ≠ -1) (h2 : count < 0) :
    parseAtFuel (f + 1) (42 :: tail) = some (.arr [], rest, true) := by
  rw [parseAtFuel]; simp [hr, hn, h1, h2]

theorem parseAt_array_go {tail line rest : List Nat} {count : ℚ} (f : Nat)
    (hr : readLine tail = some (line, rest)) (hn : jsNumber line = some count)
    (h0 : ¬count < 0) :
    parseAtFuel (f + 1) (42 :: tail)
      = (parseManyFuel f count.ceil.toNat rest).map (fun vr => (.arr vr.1, vr.2)) := by
  rw [parseAtFuel]
  have h1 : ¬count = -1 := by rintro rfl; exact h0 (by norm_num)
  cases hm : parseManyFuel f count.ceil.toNat rest with
  | none => simp [hr, hn, h1, h0, hm]
  | some vr =>
    obtain ⟨elems, next, ex⟩ := vr
    simp [hr, hn, h1, h0, hm]

theorem parseAt_unknown {p : Nat} {tail : List Nat} (f : Nat)
    (h43 : p ≠ 43) (h45 : p ≠ 45) (h58 : p ≠ 58) (h36 : p ≠ 36) (h42 : p ≠ 42) :
    parseAtFuel (f + 1) (p :: tail) = none := by
  rw [parseAtFuel]; simp [h43, h45, h58, h36, h42]

theorem parseMany_zero (n : Nat) (b : List Nat) : parseManyFuel 0 n b = none := rfl

theorem parseMany_succ_zero (f : Nat) (b : List Nat) :
    parseManyFuel (f + 1) 0 b = some ([], b, true) := rfl

theorem parseMany_succ (f n : Nat) (b : List Nat) :
    parseManyFuel (f + 1) (n + 1) b
      = match parseAtFuel f b with
        | none => none
        | some (v, rest, ex) =>
          if ex then
            match parseManyFuel f n rest with
            | none => none
            | some (vs, next, ex2) => some (v :: vs, next, ex2)
          else
            match n with
            | 0 => some ([v], rest, false)
            | _ + 1 => none := rfl

/-- Successful parses are stable under extra fuel (jointly for the two mutual
functions), so `parseAtFuel (buf.length + 2)` faithfully represents the
source's unbounded recursion on any decodable buffer. -/
theorem parse_mono : ∀ f g : Nat, f ≤ g →
    (∀ b x, parseAtFuel f b = some x → parseAtFuel g b = some x) ∧
    (∀ n b y, parseManyFuel f n b = some y → parseManyFuel g n b = some y) := by
  intro f
  induction f with
  | zero =>
    intro g _
    refine ⟨fun b x h => ?_, fun n b y h => ?_⟩ <;> simp [parseAt_zero, parseMany_zero] at h
  | succ f ih =>
    intro g0 hg
    obtain ⟨g, rfl⟩ : ∃ g', g0 = g' + 1 := ⟨g0 - 1, by omega⟩
    obtain ⟨ihAt, ihMany⟩ := ih g (by omega)
    refine ⟨fun b x h => ?_, fun n b y h => ?_⟩
    · cases b with
      | nil => rw [parseAt_nil] at h; cases h
      | cons p tail =>
        by_cases h43 : p = 43
        · subst h43
          cases hr : readLine tail with
          | none => rw [parseAt_simple_none f hr] at h; cases h
          | some lr =>
            obtain ⟨line, rest⟩ := lr
            rw [parseAt_simple f hr] at h
            rw [parseAt_simple g hr]
            exact h
        · by_cases h45 : p = 45
          · subst h45
            cases hr : readLine tail with
            | none => rw [parseAt_err_none f hr] at h; cases h
            | some lr =>
              obtain ⟨line, rest⟩ := lr
              rw [parseAt_err f hr] at h
              rw [parseAt_err g hr]
              exact h
          · by_cases h58 : p = 58
            · subst h58
              cases hr : readLine tail with
              | none => rw [parseAt_int_none f hr] at h; cases h
              | some lr =>
                obtain ⟨line, rest⟩ := lr
                rw [parseAt_int f hr] at h
                rw [parseAt_int g hr]
                exact h
            · by_cases h36 : p = 36
              · subst h36
                cases hr : readLine tail with
                | none => rw [parseAt_bulk_none f hr] at h; cases h
                | some lr =>
                  obtain ⟨line, rest⟩ := lr
                  cases hn : jsNumber line with
                  | none =>
                    rw [parseAt_bulk_nan f hr hn] at h
                    rw [parseAt_bulk_nan g hr hn]
                    exact h
                  | some len =>
                    by_cases hlt : len < 0
                    · rw [parseAt_bulk_neg f hr hn hlt] at h
                      rw [parseAt_bulk_neg g hr hn hlt]
                      exact h
                    · by_cases hden : len.den = 1
                      · by_cases hs : rest.length < len.num.toNat + 2
                        · rw [parseAt_bulk_int_short f hr hn hlt hden hs] at h; cases h
                        · rw [parseAt_bulk_int_ok f hr hn hlt hden hs] at h
                          rw [parseAt_bulk_int_ok g hr hn hlt hden hs]
                          exact h
                      · by_cases hs : rest.length < len.floor.toNat + 3
                        · rw [parseAt_bulk_frac_short f hr hn hlt hden hs] at h; cases h
                        · rw [parseAt_bulk_frac_ok f hr hn hlt hden hs] at h
                          rw [parseAt_bulk_frac_ok g hr hn hlt hden hs]
                          exact h
              · by_cases h42 : p = 42
                · subst h42
                  cases hr : readLine tail with
                  | none => rw [parseAt_array_none f hr] at h; cases h
                  | some lr =>
                    obtain ⟨line, rest⟩ := lr
                    cases hn : jsNumber line with
                    | none =>
                      rw [parseAt_array_nan f hr hn] at h
                      rw [parseAt_array_nan g hr hn]
                      exact h
                    | some count =>
                      by_cases hm2 : count < 0
                      · by_cases hm1 : count = -1
                        · subst hm1
                          rw [parseAt_array_neg1 f hr hn] at h
                          rw [parseAt_array_neg1 g hr hn]
                          exact h
                        · rw [parseAt_array_neg f hr hn hm1 hm2] at h
                          rw [parseAt_array_neg g hr hn hm1 hm2]
                          exact h
                      · rw [parseAt_array_go f hr hn hm2] at h
                        rw [parseAt_array_go g hr hn hm2]
                        cases hm : parseManyFuel f count.ceil.toNat rest with
                        | none => rw [hm] at h; cases h
                        | some vr =>
                          rw [hm] at h
                          rw [ihMany _ _ _ hm]
                          exact h
                · rw [parseAt_unknown f h43 h45 h58 h36 h42] at h; cases h
    · cases n with
      | zero =>
        rw [parseMany_succ_zero] at h
        rw [parseMany_succ_zero]
        exact h
      | succ n =>
        rw [parseMany_succ] at h
        rw [parseMany_succ]
        split at h
        · cases h
        · next v rest ex ha =>
          simp only [ihAt _ _ ha]
          split at h
          · next hex =>
            rw [if_pos hex]
            split at h
            · cases h
            · next vs next0 ex2 hm =>
              simp only [ihMany _ _ _ hm]
              exact h
          · next hex =>
            rw [if_neg hex]
            exact h

/-- Fuel sufficiency: above the thresholds `length + 2` (for `parseAtFuel`)
and `length + 3` (for `parseManyFuel`) the result no longer depends on the
fuel.  Hence `parseAtFuel (buf.length + 2) buf`, as used by `tryParseResp`,
computes exactly the source's unbounded recursion. -/
theorem parseAt_fuel_stable : ∀ (bound : Nat) (b : List Nat), b.length ≤ bound →
    (∀ f, b.length + 2 ≤ f → parseAtFuel f b = parseAtFuel (b.length + 2) b)
    ∧ (∀ n f, b.length + 3 ≤ f → parseManyFuel f n b = parseManyFuel (b.length + 3) n b) := by
  intro bound
  induction bound with
  | zero =>
    intro b hb
    have hbnil : b = [] := List.eq_nil_of_length_eq_zero (by omega)
    subst hbnil
    constructor
    · intro f hf
      rw [parseAt_nil, parseAt_nil]
    · intro n f hf
      obtain ⟨g, rfl⟩ : ∃ g, f = g + 1 := ⟨f - 1, by omega⟩
      show parseManyFuel (g + 1) n [] = parseManyFuel (2 + 1) n []
      cases n with
      | zero => rw [parseMany_succ_zero, parseMany_succ_zero]
      | succ n => rw [parseMany_succ, parseMany_succ, parseAt_nil, parseAt_nil]
  | succ bound ih =>
    intro b hb
    have hpart1 : ∀ f, b.length + 2 ≤ f → parseAtFuel f b = parseAtFuel (b.length + 2) b := by
      intro f hf
      obtain ⟨g, rfl⟩ : ∃ g, f = g + 1 := ⟨f - 1, by omega⟩
      cases b with
      | nil => rw [parseAt_nil, parseAt_nil]
      | cons p tail =>
        show parseAtFuel (g + 1) (p :: tail) = parseAtFuel ((tail.length + 2) + 1) (p :: tail)
        by_cases h43 : p = 43
        · subst h43
          cases hr : readLine tail with
          | none => rw [parseAt_simple_none g hr, parseAt_simple_none (tail.length + 2) hr]
          | some lr =>
            obtain ⟨line, rest⟩ := lr
            rw [parseAt_simple g hr, parseAt_simple (tail.length + 2) hr]
        · by_cases h45 : p = 45
          · subst h45
            cases hr : readLine tail with
            | none => rw [parseAt_err_none g hr, parseAt_err_none (tail.length + 2) hr]
            | some lr =>
              obtain ⟨line, rest⟩ := lr
              rw [parseAt_err g hr, parseAt_err (tail.length + 2) hr]
          · by_cases h58 : p = 58
            · subst h58
              cases hr : readLine tail with
              | none => rw [parseAt_int_none g hr, parseAt_int_none (tail.length + 2) hr]
              | some lr =>
                obtain ⟨line, rest⟩ := lr
                rw [parseAt_int g hr, parseAt_int (tail.length + 2) hr]
            · by_cases h36 : p = 36
              · subst h36
                cases hr : readLine tail with
                | none => rw [parseAt_bulk_none g hr, parseAt_bulk_none (tail.length + 2) hr]
                | some lr =>
                  obtain ⟨line, rest⟩ := lr
                  cases hn : jsNumber line with
                  | none =>
                    rw [parseAt_bulk_nan g hr hn, parseAt_bulk_nan (tail.length + 2) hr hn]
                  | some len =>
                    by_cases hlt : len < 0
                    · rw [parseAt_bulk_neg g hr hn hlt,
                        parseAt_bulk_neg (tail.length + 2) hr hn hlt]
                    · by_cases hden : len.den = 1
                      · by_cases hs : rest.length < len.num.toNat + 2
                        · rw [parseAt_bulk_int_short g hr hn hlt hden hs,
                            parseAt_bulk_int_short (tail.length + 2) hr hn hlt hden hs]
                        · rw [parseAt_bulk_int_ok g hr hn hlt hden hs,
                            parseAt_bulk_int_ok (tail.length + 2) hr hn hlt hden hs]
                      · by_cases hs : rest.length < len.floor.toNat + 3
                        · rw [parseAt_bulk_frac_short g hr hn hlt hden hs,
                            parseAt_bulk_frac_short (tail.length + 2) hr hn hlt hden hs]
                        · rw [parseAt_bulk_frac_ok g hr hn hlt hden hs,
                            parseAt_bulk_frac_ok (tail.length + 2) hr hn hlt hden hs]
              · by_cases h42 : p = 42
                · subst h42
                  cases hr : readLine tail with
                  | none => rw [parseAt_array_none g hr, parseAt_array_none (tail.length + 2) hr]
                  | some lr =>
                    obtain ⟨line, rest⟩ := lr
                    cases hn : jsNumber line with
                    | none =>
                      rw [parseAt_array_nan g hr hn, parseAt_array_nan (tail.length + 2) hr hn]
                    | some count =>
                      by_cases hm2 : count < 0
                      · by_cases hm1 : count = -1
                        · subst hm1
                          rw [parseAt_array_neg1 g hr hn,
                            parseAt_array_neg1 (tail.length + 2) hr hn]
                        · rw [parseAt_array_neg g hr hn hm1 hm2,
                            parseAt_array_neg (tail.length + 2) hr hn hm1 hm2]
                      · rw [parseAt_array_go g hr hn hm2,
                          parseAt_array_go (tail.length + 2) hr hn hm2]
                        have hrl := readLine_length hr
                        have hrest : rest.length ≤ bound := by
                          simp only [List.length_cons] at hb
                          omega
                        rw [(ih rest hrest).2 count.ceil.toNat g (by
                          simp only [List.length_cons] at hf
                          omega)]
                        rw [(ih rest hrest).2 count.ceil.toNat (tail.length + 2) (by omega)]
                · rw [parseAt_unknown g h43 h45 h58 h36 h42,
                    parseAt_unknown (tail.length + 2) h43 h45 h58 h36 h42]
    refine ⟨hpart1, ?_⟩
    intro n f hf
    obtain ⟨g, rfl⟩ : ∃ g, f = g + 1 := ⟨f - 1, by omega⟩
    show parseManyFuel (g + 1) n b = parseManyFuel ((b.length + 2) + 1) n b
    cases n with
    | zero => rw [parseMany_succ_zero, parseMany_succ_zero]
    | succ n =>
      rw [parseMany_succ, parseMany_succ]
      rw [hpart1 g (by omega)]
      cases ha : parseAtFuel (b.length + 2) b with
      | none => rfl
      | some vr =>
        obtain ⟨v, rest, ex⟩ := vr
        have hrest : rest.length < b.length := parseAtFuel_length ha
        have h2 := (ih rest (by omega)).2 n g (by omega)
        have h3 := (ih rest (by omega)).2 n (b.length + 2) (by omega)
        simp only [h2, h3]

/-- A successfully decoded frame is insensitive to bytes arriving after it:
appending more data to the buffer leaves the decoded value, the exactness
flag and the consumed byte count unchanged, appending the same data to the
unconsumed rest.  This is the key fact behind incremental (chunked)
decoding. -/
theorem parse_append : ∀ (f : Nat) (e : List Nat),
    (∀ b v r ex, parseAtFuel f b = some (v, r, ex) →
      parseAtFuel f (b ++ e) = some (v, r ++ e, ex)) ∧
    (∀ n b vs r ex, parseManyFuel f n b = some (vs, r, ex) →
      parseManyFuel f n (b ++ e) = some (vs, r ++ e, ex)) := by
  intro f
  induction f with
  | zero =>
    intro e
    refine ⟨fun b v r ex h => ?_, fun n b vs r ex h => ?_⟩ <;>
      simp [parseAt_zero, parseMany_zero] at h
  | succ f ih =>
    intro e
    obtain ⟨ihAt, ihMany⟩ := ih e
    refine ⟨fun b v r ex h => ?_, fun n b vs r ex h => ?_⟩
    · cases b with
      | nil => rw [parseAt_nil] at h; cases h
      | cons p tail =>
        rw [List.cons_append]
        by_cases h43 : p = 43
        · subst h43
          cases hr : readLine tail with
          | none => rw [parseAt_simple_none f hr] at h; cases h
          | some lr =>
            obtain ⟨line, rest⟩ := lr
            rw [parseAt_simple f hr] at h
            simp only [Option.some.injEq, Prod.mk.injEq] at h
            obtain ⟨hq1, hq2, hq3⟩ := h; subst hq1; subst hq2; subst hq3
            rw [parseAt_simple f (readLine_append hr)]
        · by_cases h45 : p = 45
          · subst h45
            cases hr : readLine tail with
            | none => rw [parseAt_err_none f hr] at h; cases h
            | some lr =>
              obtain ⟨line, rest⟩ := lr
              rw [parseAt_err f hr] at h
              simp only [Option.some.injEq, Prod.mk.injEq] at h
              obtain ⟨hq1, hq2, hq3⟩ := h; subst hq1; subst hq2; subst hq3
              rw [parseAt_err f (readLine_append hr)]
          · by_cases h58 : p = 58
            · subst h58
              cases hr : readLine tail with
              | none => rw [parseAt_int_none f hr] at h; cases h
              | some lr =>
                obtain ⟨line, rest⟩ := lr
                rw [parseAt_int f hr] at h
                simp only [Option.some.injEq, Prod.mk.injEq] at h
                obtain ⟨hq1, hq2, hq3⟩ := h; subst hq1; subst hq2; subst hq3
                rw [parseAt_int f (readLine_append hr)]
            · by_cases h36 : p = 36
              · subst h36
                cases hr : readLine tail with
                | none => rw [parseAt_bulk_none f hr] at h; cases h
                | some lr =>
                  obtain ⟨line, rest⟩ := lr
                  cases hn : jsNumber line with
                  | none =>
                    rw [parseAt_bulk_nan f hr hn] at h
                    simp only [Option.some.injEq, Prod.mk.injEq] at h
                    obtain ⟨hq1, hq2, hq3⟩ := h; subst hq1; subst hq2; subst hq3
                    rw [parseAt_bulk_nan f (readLine_append hr) hn]
                  | some len =>
                    by_cases hlt : len < 0
                    · rw [parseAt_bulk_neg f hr hn hlt] at h
                      simp only [Option.some.injEq, Prod.mk.injEq] at h
                      obtain ⟨hq1, hq2, hq3⟩ := h; subst hq1; subst hq2; subst hq3
                      rw [parseAt_bulk_neg f (readLine_append hr) hn hlt]
                    · by_cases hden : len.den = 1
                      · by_cases hs : rest.length < len.num.toNat + 2
                        · rw [parseAt_bulk_int_short f hr hn hlt hden hs] at h; cases h
                        · rw [parseAt_bulk_int_ok f hr hn hlt hden hs] at h
                          simp only [Option.some.injEq, Prod.mk.injEq] at h
                          obtain ⟨hq1, hq2, hq3⟩ := h; subst hq1; subst hq2; subst hq3
                          have hs' : ¬(rest ++ e).length < len.num.toNat + 2 := by
                            rw [List.length_append]; omega
                          rw [parseAt_bulk_int_ok f (readLine_append hr) hn hlt hden hs']
                          have hle1 : len.num.toNat ≤ rest.length := by omega
                          have hle2 : len.num.toNat + 2 ≤ rest.length := by omega
                          rw [List.take_append_of_le_length hle1,
                            List.drop_append_of_le_length hle2]
                      · by_cases hs : rest.length < len.floor.toNat + 3
                        · rw [parseAt_bulk_frac_short f hr hn hlt hden hs] at h; cases h
                        · rw [parseAt_bulk_frac_ok f hr hn hlt hden hs] at h
                          simp only [Option.some.injEq, Prod.mk.injEq] at h
                          obtain ⟨hq1, hq2, hq3⟩ := h; subst hq1; subst hq2; subst hq3
                          have hs' : ¬(rest ++ e).length < len.floor.toNat + 3 := by
                            rw [List.length_append]; omega
                          rw [parseAt_bulk_frac_ok f (readLine_append hr) hn hlt hden hs']
                          have hle1 : len.floor.toNat ≤ rest.length := by omega
                          have hle2 : len.floor.toNat + 2 ≤ rest.length := by omega
                          rw [List.take_append_of_le_length hle1,
                            List.drop_append_of_le_length hle2]
              · by_cases h42 : p = 42
                · subst h42
                  cases hr : readLine tail with
                  | none => rw [parseAt_array_none f hr] at h; cases h
                  | some lr =>
                    obtain ⟨line, rest⟩ := lr
                    cases hn : jsNumber line with
                    | none =>
                      rw [parseAt_array_nan f hr hn] at h
                      simp only [Option.some.injEq, Prod.mk.injEq] at h
                      obtain ⟨hq1, hq2, hq3⟩ := h; subst hq1; subst hq2; subst hq3
                      rw [parseAt_array_nan f (readLine_append hr) hn]
                    | some count =>
                      by_cases hm2 : count < 0
                      · by_cases hm1 : count = -1
                        · subst hm1
                          rw [parseAt_array_neg1 f hr hn] at h
                          simp only [Option.some.injEq, Prod.mk.injEq] at h
                          obtain ⟨hq1, hq2, hq3⟩ := h; subst hq1; subst hq2; subst hq3
                          rw [parseAt_array_neg1 f (readLine_append hr) hn]
                        · rw [parseAt_array_neg f hr hn hm1 hm2] at h
                          simp only [Option.some.injEq, Prod.mk.injEq] at h
                          obtain ⟨hq1, hq2, hq3⟩ := h; subst hq1; subst hq2; subst hq3
                          rw [parseAt_array_neg f (readLine_append hr) hn hm1 hm2]
                      · rw [parseAt_array_go f hr hn hm2] at h
                        rw [parseAt_array_go f (readLine_append hr) hn hm2]
                        cases hm : parseManyFuel f count.ceil.toNat rest with
                        | none => rw [hm] at h; cases h
                        | some vr =>
                          obtain ⟨elems, next, ex0⟩ := vr
                          rw [hm] at h
                          simp only [Option.map_some', Option.some.injEq,
                            Prod.mk.injEq] at h
                          obtain ⟨hq1, hq2, hq3⟩ := h; subst hq1; subst hq2; subst hq3
                          rw [ihMany _ _ _ _ _ hm]
                          rfl
                · rw [parseAt_unknown f h43 h45 h58 h36 h42] at h; cases h
    · cases n with
      | zero =>
        rw [parseMany_succ_zero] at h
        simp only [Option.some.injEq, Prod.mk.injEq] at h
        obtain ⟨hq1, hq2, hq3⟩ := h; subst hq1; subst hq2; subst hq3
        rw [parseMany_succ_zero]
      | succ n =>
        rw [parseMany_succ] at h
        rw [parseMany_succ]
        split at h
        · cases h
        · next v rest0 ex0 ha =>
          simp only [ihAt _ _ _ _ ha]
          split at h
          · next hex =>
            rw [if_pos hex]
            split at h
            · cases h
            · next vs0 next0 ex2 hm =>
              simp only [Option.some.injEq, Prod.mk.injEq] at h
              obtain ⟨hq1, hq2, hq3⟩ := h; subst hq1; subst hq2; subst hq3
              simp only [ihMany _ _ _ _ _ hm]
          · next hex =>
            rw [if_neg hex]
            split at h
            · simp only [Option.some.injEq, Prod.mk.injEq] at h
              obtain ⟨hq1, hq2, hq3⟩ := h; subst hq1; subst hq2; subst hq3
              rfl
            · cases h

/-- Specialisation of `tryParseResp` to a nonempty buffer: whatever
`parseAtFuel` decodes (at the sufficient fuel), `tryParseResp` returns with
the truncated rest, the exactness flag dropped. -/
theorem tryParseResp_of_parseAt {p : Nat} {tail : List Nat} {v : RespValue}
    {r : List Nat} {ex : Bool}
    (h : parseAtFuel (tail.length + 3) (p :: tail) = some (v, r, ex)) :
    tryParseResp (p :: tail) = some (v, r) := by
  show (parseAtFuel (tail.length + 3) (p :: tail)).map (fun vr => (vr.1, vr.2.1))
    = some (v, r)
  rw [h]
  rfl

theorem tryParseResp_of_parseAt_none {p : Nat} {tail : List Nat}
    (h : parseAtFuel (tail.length + 3) (p :: tail) = none) :
    tryParseResp (p :: tail) = none := by
  show (parseAtFuel (tail.length + 3) (p :: tail)).map (fun vr => (vr.1, vr.2.1)) = none
  rw [h]
  rfl

theorem tryParseResp_consumes {b : List Nat} {v : RespValue} {r : List Nat}
    (h : tryParseResp b = some (v, r)) : r.length < b.length := by
  unfold tryParseResp at h
  split_ifs at h
  obtain ⟨⟨v0, r0, ex0⟩, hp, heq⟩ := Option.map_eq_some'.mp h
  simp only [Prod.mk.injEq] at heq
  obtain ⟨hq1, hq2⟩ := heq; subst hq1; subst hq2
  exact parseAtFuel_length hp

theorem tryParseResp_append {b : List Nat} {v : RespValue} {r : List Nat} (e : List Nat)
    (h : tryParseResp b = some (v, r)) : tryParseResp (b ++ e) = some (v, r ++ e) := by
  unfold tryParseResp at h ⊢
  split_ifs at h with hb
  obtain ⟨⟨v0, r0, ex0⟩, hp, heq⟩ := Option.map_eq_some'.mp h
  simp only [Prod.mk.injEq] at heq
  obtain ⟨hq1, hq2⟩ := heq; subst hq1; subst hq2
  have hbe : ¬(b ++ e).isEmpty = true := by
    simp only [List.isEmpty_iff] at hb ⊢
    simp [hb]
  rw [if_neg hbe]
  have h1 : parseAtFuel ((b ++ e).length + 2) b = some (v0, r0, ex0) :=
    (parse_mono _ _ (by rw [List.length_append]; omega)).1 _ _ hp
  rw [(parse_append _ e).1 _ _ _ _ h1]
  rfl

/-! ## The receive loop -/

/-- Embeds the `while (true)` loop of `RedisLite.onData` (source lines
226–234) at the level of the buffer alone: decode as many complete frames as
the buffer holds, returning them in arrival order together with the final
(undecodable remainder) buffer. -/
def drain (buf : List Nat) : List RespValue × List Nat :=
  match h : tryParseResp buf with
  | none => ([], buf)
  | some (v, rest) => (v :: (drain rest).1, (drain rest).2)
termination_by buf.length
decreasing_by all_goals exact tryParseResp_consumes h

theorem drain_none {buf : List Nat} (h : tryParseResp buf = none) :
    drain buf = ([], buf) := by
  rw [drain, h]

theorem drain_some {buf rest : List Nat} {v : RespValue}
    (h : tryParseResp buf = some (v, rest)) :
    drain buf = (v :: (drain rest).1, (drain rest).2) := by
  rw [drain, h]

/-- After the loop, the remaining buffer holds no complete frame: the loop
decodes as many complete frames as the buffer holds. -/
theorem drain_post (buf : List Nat) : tryParseResp (drain buf).2 = none := by
  induction buf using drain.induct with
  | case1 buf h => rw [drain_none h]; exact h
  | case2 buf v rest h ih => rw [drain_some h]; exact ih

/-- Draining a buffer extended by `e` first yields the frames of the original
buffer, then the frames of the leftover plus `e`. -/
theorem drain_append (a e : List Nat) :
    drain (a ++ e)
      = ((drain a).1 ++ (drain ((drain a).2 ++ e)).1, (drain ((drain a).2 ++ e)).2) := by
  induction a using drain.induct with
  | case1 a h => rw [drain_none h]; simp
  | case2 a v rest h ih =>
    rw [drain_some h, drain_some (tryParseResp_append e h)]
    simp [ih]

/-- Feed a list of chunks to the client's buffer-and-drain loop, collecting
all decoded frames in order; embeds repeated invocations of
`RedisLite.onData` at the buffer level. -/
def feedList (buf : List Nat) : List (List Nat) → List RespValue × List Nat
  | [] => ([], buf)
  | c :: cs =>
    ((drain (buf ++ c)).1 ++ (feedList (drain (buf ++ c)).2 cs).1,
      (feedList (drain (buf ++ c)).2 cs).2)

/-- Chunking is irrelevant: feeding any chunk sequence equals draining the
concatenation in one shot, provided the starting buffer is fully drained. -/
theorem feedList_drain (chunks : List (List Nat)) :
  ∀ buf : List Nat, tryParseResp buf = none →
    feedList buf chunks = drain (buf ++ chunks.flatten) := by
  induction chunks with
  | nil =>
    intro buf hbuf
    rw [feedList]
    rw [List.flatten_nil, List.append_nil, drain_none hbuf]
  | cons c cs ih =>
    intro buf hbuf
    rw [feedList]
    rw [List.flatten_cons, ← List.append_assoc, drain_append (buf ++ c) cs.flatten]
    rw [ih _ (drain_post (buf ++ c))]

/-! ## The connection manager: pending-request queue and reply delivery -/

/-- The mutable `RedisLite` state relevant to reply delivery (source lines
216–217): the receive `buffer` and the `pending` queue.  A pending request is
represented by an opaque identifier; the list order is send order. -/
structure ConnState where
  buffer : List Nat
  pending : List Nat

/-- How a delivered reply settles its pending request (source lines 232–233):
an error reply rejects the request, every other value resolves it. -/
inductive Outcome where
  | resolved (v : RespValue)
  | rejected (msg : List Nat)

/-- `if (parsed.value instanceof RedisRespError) job.reject(...) else
job.resolve(...)`. -/
def settle : RespValue → Outcome
  | .err m => .rejected m
  | v => .resolved v

/-- Embeds the loop of `RedisLite.onData` (source lines 226–234) including the
`pending.shift()` pairing: decode frames while possible; each decoded frame
pops the oldest pending request and settles it (a frame arriving with an empty
queue is dropped, mirroring `if (!job) continue`).  Returns the new state and
the deliveries performed, oldest first. -/
def onDataLoop (st : ConnState) : ConnState × List (Nat × Outcome) :=
  match h : tryParseResp st.buffer with
  | none => (st, [])
  | some (v, rest) =>
    match st.pending with
    | [] => onDataLoop ⟨rest, []⟩
    | j :: ps =>
      ((onDataLoop ⟨rest, ps⟩).1, (j, settle v) :: (onDataLoop ⟨rest, ps⟩).2)
termination_by st.buffer.length
decreasing_by all_goals exact tryParseResp_consumes h

/-- Embeds `RedisLite.onData` (source lines 224–235): concatenate the incoming
data onto the buffer, then run the decode-and-deliver loop. -/
def onData (st : ConnState) (data : List Nat) : ConnState × List (Nat × Outcome) :=
  onDataLoop ⟨st.buffer ++ data, st.pending⟩

/-- The queue effect of `RedisLite.rawCommand` (source lines 291–293): the new
pending request is pushed at the tail of the queue, in send order. -/
def rawCommandStep (st : ConnState) (reqId : Nat) : ConnState :=
  ⟨st.buffer, st.pending ++ [reqId]⟩

theorem foldl_rawCommandStep (st : ConnState) (reqs : List Nat) :
    reqs.foldl rawCommandStep st = ⟨st.buffer, st.pending ++ reqs⟩ := by
  induction reqs generalizing st with
  | nil => simp
  | cons r rs ih => rw [List.foldl_cons, ih]; simp [rawCommandStep]

/-- Full characterisation of the receive loop: the deliveries are exactly the
decoded frames zipped positionally against the pending queue, the consumed
requests are popped from the front, and the leftover buffer is the drain
remainder. -/
theorem onDataLoop_spec (st : ConnState) :
    onDataLoop st
      = (⟨(drain st.buffer).2, st.pending.drop (drain st.buffer).1.length⟩,
          st.pending.zip ((drain st.buffer).1.map settle)) := by
  induction st using onDataLoop.induct with
  | case1 st h =>
    rw [onDataLoop, h, drain_none h]
    simp
  | case2 st v rest h hp ih =>
    rw [onDataLoop, h, hp]
    show onDataLoop ⟨rest, []⟩ = _
    rw [ih, drain_some h]
    simp
  | case3 st v rest h j ps hp ih =>
    rw [onDataLoop, h, hp]
    show ((onDataLoop ⟨rest, ps⟩).1, (j, settle v) :: (onDataLoop ⟨rest, ps⟩).2) = _
    rw [ih, drain_some h]
    simp

/-- Unknown reply-type prefix byte. -/
def unknownPrefix (p : Nat) : Prop :=
  p ≠ 43 ∧ p ≠ 45 ∧ p ≠ 58 ∧ p ≠ 36 ∧ p ≠ 42

instance (p : Nat) : Decidable (unknownPrefix p) := by
  unfold unknownPrefix; infer_instance

/-- Byte list contains no CRLF pair. -/
def noCRLF : List Nat → Bool
  | [] => true
  | [_] => true
  | a :: b :: t => !(a == 13 && b == 10) && noCRLF (b :: t)

theorem noCRLF_tail {a : Nat} {t : List Nat} (h : noCRLF (a :: t) = true) :
    noCRLF t = true := by
  cases t with
  | nil => rfl
  | cons b t' => rw [noCRLF] at h; exact (Bool.and_eq_true_iff.mp h).2

/-- On a CRLF-free line, `readLine` finds exactly the appended CRLF. -/
theorem readLine_of_noCRLF (line rest : List Nat)
    (h : noCRLF line = true) :
    readLine (line ++ 13 :: 10 :: rest) = some (line, rest) := by
  induction line with
  | nil =>
    rw [List.nil_append, readLine, if_pos (by simp)]
    rfl
  | cons a t ih =>
    rw [List.cons_append, readLine]
    have hcond : ¬(a = 13 ∧ (t ++ 13 :: 10 :: rest).head? = some 10) := by
      cases t with
      | nil => simp
      | cons b t' =>
        rw [noCRLF] at h
        have := (Bool.and_eq_true_iff.mp h).1
        intro ⟨ha, hb⟩
        simp only [List.cons_append, List.head?_cons, Option.some.injEq] at hb
        subst ha; subst hb
        simp at this
    rw [if_neg hcond, ih (noCRLF_tail h)]

theorem parseMany_length {f n : Nat} {b : List Nat} {vs r ex}
    (h : parseManyFuel f n b = some (vs, r, ex)) : r.length ≤ b.length :=
  (parse_length f).2 n b vs r ex h

/-- Joining singleton chunks gives back the original byte sequence. -/
theorem flatten_map_singleton (bs : List Nat) :
    (bs.map fun b => [b]).flatten = bs := by
  induction bs with
  | nil => rfl
  | cons b t ih => simp [ih]

/-! ## Claim theorems for the codec and connection manager -/

/-- **C1.** Replies are correlated strictly FIFO: after sending requests
`reqs` (in order) on a connection with no prior pending requests, an inbound
data event decodes as many complete frames as the buffer holds (the final
buffer holds no complete frame), and the deliveries are exactly the decoded
frames zipped positionally with the pending queue — the `K`th decoded reply
settles the `K`th request in send order, rejecting exactly when it is an
error reply; no other matching is involved. -/
theorem onData_fifo_correlation (buffer0 reqs data : List Nat) :
    (reqs.foldl rawCommandStep ⟨buffer0, []⟩).pending = reqs
    ∧ (onData (reqs.foldl rawCommandStep ⟨buffer0, []⟩) data).2
        = reqs.zip ((drain (buffer0 ++ data)).1.map settle)
    ∧ tryParseResp (onData (reqs.foldl rawCommandStep ⟨buffer0, []⟩) data).1.buffer = none
    ∧ ∀ k, ∀ hk1 : k < reqs.length, ∀ hk2 : k < (drain (buffer0 ++ data)).1.length,
        (onData (reqs.foldl rawCommandStep ⟨buffer0, []⟩) data).2[k]?
          = some (reqs[k], settle (drain (buffer0 ++ data)).1[k]) := by
  have hfold : reqs.foldl rawCommandStep ⟨buffer0, []⟩ = ⟨buffer0, reqs⟩ := by
    rw [foldl_rawCommandStep]
    simp
  refine ⟨by rw [hfold], ?_, ?_, ?_⟩
  · rw [hfold]
    unfold onData
    rw [onDataLoop_spec]
  · rw [hfold]
    unfold onData
    rw [onDataLoop_spec]
    exact drain_post _
  · intro k hk1 hk2
    rw [hfold]
    unfold onData
    rw [onDataLoop_spec]
    refine (List.getElem?_zip_eq_some).mpr ⟨List.getElem?_eq_getElem hk1, ?_⟩
    rw [List.getElem?_map, List.getElem?_eq_getElem hk2]
    rfl

/-- **C5.** A declared bulk length of −1 decodes to `null`, distinct from the
empty string produced by length 0; a declared array count of −1 decodes to a
null array, distinct from the empty array produced by count 0, and the −1
array returns after its header line without touching (recursing into) the
following bytes, which are returned unconsumed whatever they are. -/
theorem null_reply_distinctions (rest : List Nat) :
    tryParseResp (36 :: 45 :: 49 :: 13 :: 10 :: rest) = some (.nil, rest)
    ∧ tryParseResp (36 :: 48 :: 13 :: 10 :: 13 :: 10 :: rest) = some (.str [], rest)
    ∧ RespValue.nil ≠ .str []
    ∧ tryParseResp (42 :: 45 :: 49 :: 13 :: 10 :: rest) = some (.nil, rest)
    ∧ tryParseResp (42 :: 48 :: 13 :: 10 :: rest) = some (.arr [], rest)
    ∧ RespValue.nil ≠ .arr [] := by
  have hm1 : readLine (45 :: 49 :: 13 :: 10 :: rest) = some ([45, 49], rest) := by
    have := readLine_of_noCRLF [45, 49] rest (by decide)
    simpa using this
  have h0 : readLine (48 :: 13 :: 10 :: rest) = some ([48], rest) := by
    have := readLine_of_noCRLF [48] rest (by decide)
    simpa using this
  have h0' : readLine (48 :: 13 :: 10 :: 13 :: 10 :: rest) = some ([48], 13 :: 10 :: rest) := by
    have := readLine_of_noCRLF [48] (13 :: 10 :: rest) (by decide)
    simpa using this
  have hjm1 : jsNumber [45, 49] = some (-1) := by decide
  have hj0 : jsNumber [48] = some 0 := by decide
  refine ⟨?_, ?_, by simp, ?_, ?_, by simp⟩
  · exact tryParseResp_of_parseAt (parseAt_bulk_neg _ hm1 hjm1 (by decide))
  · exact tryParseResp_of_parseAt
      (parseAt_bulk_int_ok _ h0' hj0 (by decide) (by decide) (by simp))
  · exact tryParseResp_of_parseAt (parseAt_array_neg1 _ hm1 hjm1)
  · exact tryParseResp_of_parseAt ((parseAt_array_go _ h0 hj0 (by decide)).trans rfl)

/-- **C6.** Feeding the decoder one byte per data event (bytes accumulating in
the buffer between events) produces the same decoded frames and the same final
buffer as feeding the whole sequence as one chunk; and whenever the buffer
holds only a partial frame the decoder reports incomplete and the loop
consumes nothing, so the next attempt re-parses from the same offset. -/
theorem bytewise_feed_equals_single_chunk (bs : List Nat) :
    feedList [] (bs.map fun b => [b]) = feedList [] [bs]
    ∧ ∀ buf : List Nat, tryParseResp buf = none → drain buf = ([], buf) := by
  constructor
  · rw [feedList_drain (bs.map fun b => [b]) [] rfl, feedList_drain [bs] [] rfl]
    rw [flatten_map_singleton]
    simp
  · intro buf h
    exact drain_none h

theorem bytewise_feed_equals_single_chunk_witness :
    feedList [] [[43], [13], [10]] = feedList [] [[43, 13, 10]]
    ∧ drain [36] = ([], [36]) :=
  ⟨(bytewise_feed_equals_single_chunk [43, 13, 10]).1,
    (bytewise_feed_equals_single_chunk [43, 13, 10]).2 [36] rfl⟩

/-- **C7 (counterexample).** The claim says structurally invalid leading bytes
(an unknown reply-type prefix, or a malformed length line) surface a
transport-level failure that tears down the connection.  They do not: the
decoder has no failure outcome at all.  On `?\r\n` (unknown prefix `0x3F`) it
reports incomplete and `onData` leaves the buffer and the pending queue
intact, tearing nothing down; on `$abc\r\n` (malformed length line) it decodes
a `null` value, consuming the bytes and resolving the oldest pending request
as if a well-formed reply had arrived. -/
theorem malformed_no_teardown_counterexample :
    tryParseResp [63, 13, 10] = none
    ∧ onData ⟨[], [7]⟩ [63, 13, 10] = (⟨[63, 13, 10], [7]⟩, [])
    ∧ tryParseResp [36, 97, 98, 99, 13, 10] = some (.nil, [])
    ∧ onData ⟨[], [7]⟩ [36, 97, 98, 99, 13, 10] = (⟨[], []⟩, [(7, .resolved .nil)]) := by
  have hq : tryParseResp [63, 13, 10] = none := rfl
  have habc : tryParseResp [36, 97, 98, 99, 13, 10] = some (.nil, []) := rfl
  refine ⟨hq, ?_, habc, ?_⟩
  · unfold onData
    rw [onDataLoop_spec]
    simp only [List.nil_append]
    rw [drain_none hq]
    simp
  · unfold onData
    rw [onDataLoop_spec]
    simp only [List.nil_append]
    rw [drain_some habc, @drain_none [] rfl]
    simp
    rfl

/-- **C7 (amended).** Malformed bytes never crash the decode (it is a total
function into an option type), but no transport-level failure is raised
either: an unknown reply-type prefix is treated as incomplete — the decoder
returns the incomplete sentinel no matter what follows, so the connection
hangs rather than tearing down — and a bulk-length or array-count line whose
JavaScript numeric value is not finite (`Number(line)` is `NaN` or
`±Infinity`) is silently decoded as a `null` value (bulk) or an empty array
(array), consuming the header line. -/
theorem malformed_input_amended :
    (∀ p : Nat, ∀ tail : List Nat, unknownPrefix p → tryParseResp (p :: tail) = none)
    ∧ (∀ line rest : List Nat, noCRLF line = true → jsNumber line = none →
        tryParseResp (36 :: line ++ 13 :: 10 :: rest) = some (.nil, rest)
        ∧ tryParseResp (42 :: line ++ 13 :: 10 :: rest) = some (.arr [], rest)) := by
  constructor
  · intro p tail hp
    obtain ⟨h43, h45, h58, h36, h42⟩ := hp
    exact tryParseResp_of_parseAt_none (parseAt_unknown _ h43 h45 h58 h36 h42)
  · intro line rest hcr hj
    have hr := readLine_of_noCRLF line rest hcr
    constructor
    · exact tryParseResp_of_parseAt (parseAt_bulk_nan _ hr hj)
    · exact tryParseResp_of_parseAt (parseAt_array_nan _ hr hj)

theorem malformed_input_amended_witness :
    tryParseResp [63, 13, 10] = none
    ∧ tryParseResp [36, 97, 98, 99, 13, 10] = some (.nil, [])
    ∧ tryParseResp [42, 97, 98, 99, 13, 10] = some (.arr [], []) :=
  ⟨malformed_input_amended.1 63 [13, 10] (by decide),
    (malformed_input_amended.2 [97, 98, 99] [] (by decide) (by decide)).1,
    (malformed_input_amended.2 [97, 98, 99] [] (by decide) (by decide)).2⟩

/-! ## The remote key-value store

The rate limiter and the captcha handlers run against the external Redis
store.  The store itself is not part of the repository; the model below
captures the documented semantics of the six commands the repository issues
(`GET`, `SET … EX`, `DEL`, `INCR`, `EXPIRE`, `TTL`). -/

/-- One stored value: the string payload and its time-to-live in seconds
(`none` = no expiry, a persistent key). -/
structure Entry where
  val : String
  ttl : Option Int
deriving DecidableEq, Repr

/-- The remote store: a map from keys to entries. -/
def Store := String → Option Entry

def emptyStore : Store := fun _ => none

/-- Point update of the store. -/
def Store.upd (st : Store) (k : String) (v : Option Entry) : Store :=
  fun k' => if k' = k then v else st k'

theorem Store.upd_same (st : Store) (k : String) (v : Option Entry) :
    st.upd k v k = v := by simp [Store.upd]

theorem Store.upd_other (st : Store) (k : String) (v : Option Entry)
    {k' : String} (h : k' ≠ k) : st.upd k v k' = st k' := by simp [Store.upd, h]

/-- Decimal value of a nonempty all-digit character list. -/
def charsToNat : List Char → Option Nat
  | [] => none
  | cs =>
    if cs.all (fun c => 48 ≤ c.toNat && c.toNat ≤ 57)
      then some (cs.foldl (fun a c => a * 10 + (c.toNat - 48)) 0) else none

/-- The decimal-integer reading Redis gives a stored value when executing
`INCR` (optional minus sign, then digits). -/
def strToInt? (s : String) : Option Int :=
  match s.data with
  | [] => none
  | c :: rest =>
    if c.toNat = 45 then (charsToNat rest).map (fun n => -(n : Int))
    else (charsToNat (c :: rest)).map (fun n => (n : Int))

/-- Models Redis `INCR`: a missing key is created holding `"1"` and no expiry;
an existing key's integer value is incremented in place, keeping its TTL
(integer-valued keys are the only case these call sites produce). -/
def redisIncr (st : Store) (k : String) : Int × Store :=
  match st k with
  | none => (1, st.upd k (some ⟨"1", none⟩))
  | some e =>
    ((strToInt? e.val).getD 0 + 1,
      st.upd k (some ⟨toString ((strToInt? e.val).getD 0 + 1), e.ttl⟩))

/-- Models Redis `EXPIRE`: returns 1 and re-arms the TTL when the key exists
(a nonpositive TTL deletes the key), 0 when it does not. -/
def redisExpire (st : Store) (k : String) (s : Int) : Int × Store :=
  match st k with
  | none => (0, st)
  | some e =>
    if s ≤ 0 then (1, st.upd k none) else (1, st.upd k (some ⟨e.val, some s⟩))

/-- Models Redis `TTL`: −2 for a missing key, −1 for a key with no expiry,
otherwise the remaining TTL. -/
def redisTtl (st : Store) (k : String) : Int :=
  match st k with
  | none => -2
  | some e => e.ttl.getD (-1)

/-- Models Redis `GET`. -/
def redisGet (st : Store) (k : String) : Option String := (st k).map Entry.val

/-- Models Redis `SET k v [EX s]`. -/
def redisSet (st : Store) (k v : String) (ex : Option Int) : Store :=
  st.upd k (some ⟨v, ex⟩)

/-- Models variadic Redis `DEL`: removes the keys, returns how many existed. -/
def redisDel (st : Store) (ks : List String) : Int × Store :=
  ((ks.countP (fun k => (st k).isSome) : Int),
    ks.foldl (fun s k => s.upd k none) st)

/-- Models one second of store time: TTLs count down, and an entry whose TTL
runs out expires (is removed). -/
def tickStore (st : Store) : Store := fun k =>
  match st k with
  | some ⟨v, some t⟩ => if t ≤ 1 then none else some ⟨v, some (t - 1)⟩
  | x => x

/-- `n` seconds of store time. -/
def tickN : Nat → Store → Store
  | 0, st => st
  | n + 1, st => tickN n (tickStore st)

/-- The `RedisClient` interface (source `src/unnamed/part_017`, lines 62–69)
as consumed by the rate limiter and the captcha handlers.  Every operation
takes the remote store and either returns its result together with the new
store, or throws (`Except.error ()`), modelling a connection/command
failure. -/
structure RClient where
  get : String → Store → Except Unit (Option String × Store)
  set : String → String → Option Int → Store → Except Unit (Option String × Store)
  del : List String → Store → Except Unit (Int × Store)
  incr : String → Store → Except Unit (Int × Store)
  expire : String → Int → Store → Except Unit (Int × Store)
  ttl : String → Store → Except Unit (Int × Store)

/-- The healthy client: every command reaches the store and succeeds. -/
def storeClient : RClient where
  get k st := .ok (redisGet st k, st)
  set k v ex st := .ok (some "OK", redisSet st k v ex)
  del ks st := .ok (redisDel st ks)
  incr k st := .ok (redisIncr st k)
  expire k s st := .ok (redisExpire st k s)
  ttl k st := .ok (redisTtl st k, st)

/-- The unreachable client: every command throws. -/
def failClient : RClient where
  get _ _ := .error ()
  set _ _ _ _ := .error ()
  del _ _ := .error ()
  incr _ _ := .error ()
  expire _ _ _ := .error ()
  ttl _ _ := .error ()

/-! ## The rate limiter -/

/-- Embeds `incrWithExpiry` (source `src/unnamed/part_020`, lines 16–37).
`rc = none` is `getRedisOptional()` returning `null`; the `match` over the
`Except` program is the `try`/`catch` that converts any thrown command error
into the `null` ("no rate limit") return.  On success returns
`{count, ttl}` together with the updated store. -/
def incrWithExpiry (rc : Option RClient) (key : String) (windowSeconds : Int)
    (st : Store) : Option (Int × Int × Store) :=
  match rc with
  | none => none
  | some c =>
    match c.incr key st with
    | .error _ => none
    | .ok (count, st1) =>
      match (if count = 1 then (c.expire key windowSeconds st1).map Prod.snd
             else .ok st1) with
      | .error _ => none
      | .ok st2 =>
        match c.ttl key st2 with
        | .error _ => none
        | .ok (t, st3) =>
          if t < 0 then
            match c.expire key windowSeconds st3 with
            | .error _ => none
            | .ok (_, st4) => some (count, windowSeconds, st4)
          else some (count, t, st3)

/-- `RateLimitRule` (source lines 6–10). -/
structure RateLimitRule where
  key : String
  limit : Int
  windowSeconds : Int

/-- `RateLimitResult` (source lines 12–14), with the `ok` discriminant as a
field. -/
structure RateLimitResult where
  ok : Bool
  count : Int
  remaining : Int
  resetSeconds : Int
deriving DecidableEq, Repr

/-- Embeds `checkRateLimit` (source lines 39–48): `none` is the `disabled`
(`null`) outcome. -/
def checkRateLimit (rc : Option RClient) (rule : RateLimitRule) (st : Store) :
    Option (RateLimitResult × Store) :=
  match incrWithExpiry rc rule.key rule.windowSeconds st with
  | none => none
  | some (count, t, st') =>
    some (⟨decide (count ≤ rule.limit), count, max 0 (rule.limit - count), t⟩, st')

/-- The observable effect of `enforceRateLimitOrRespond` on the HTTP
response: headers added, and the rejection (status, message) if one was
sent. -/
structure ResponseState where
  headers : List (String × String)
  sent : Option (Int × String)
deriving DecidableEq, Repr

/-- Embeds `enforceRateLimitOrRespond` (source lines 50–73); the returned
`Bool` is whether the caller may proceed.  `exposeHeaders`, `status` and
`message` are the already-defaulted options. -/
def enforceRateLimitOrRespond (rc : Option RClient) (rule : RateLimitRule)
    (exposeHeaders : Bool) (status : Int) (message : String)
    (st : Store) (res : ResponseState) : Bool × ResponseState × Store :=
  match checkRateLimit rc rule st with
  | none => (true, res, st)
  | some (result, st') =>
    let res1 := if exposeHeaders then
        { res with headers := res.headers ++
            [("X-RateLimit-Limit", toString rule.limit),
              ("X-RateLimit-Remaining", toString result.remaining),
              ("X-RateLimit-Reset", toString result.resetSeconds)] }
      else res
    if !result.ok then (false, { res1 with sent := some (status, message) }, st')
    else (true, res1, st')

/-! ## The captcha token store -/

/-- Terminal outcomes of the captcha-verification section of the public query
handler, one per early return (source `src/src/pages/api/public/query.ts`,
lines 61–99). -/
inductive VerifyOutcome where
  | missing
  | expired
  | locked (fails : Int)
  | mismatch (fails : Int)
  | ok
deriving DecidableEq, Repr

/-- Embeds captcha issuance on the Redis path (source
`src/src/pages/api/public/captcha.ts`, lines 49–55): store the code under
`captcha:<id>` with `EX 120`. -/
def issueCaptcha (id code : String) (st : Store) : Store :=
  redisSet st ("captcha:" ++ id) code (some 120)

/-- Embeds the captcha-verification section of the public query handler on
the Redis path (source `query.ts`, lines 61–99), with the cookie and body
values already trimmed.  `code = ""` is reported expired because the source
tests the fetched code with JavaScript falsiness (`if (!code)`). -/
def verifyCaptcha (captchaId guess : String) (st : Store) : VerifyOutcome × Store :=
  if captchaId = "" ∨ guess = "" then (.missing, st)
  else
    match redisGet st ("captcha:" ++ captchaId) with
    | none => (.expired, st)
    | some code =>
      if code = "" then (.expired, st)
      else if code ≠ guess then
        let (fails, st1) := redisIncr st ("captcha_fail:" ++ captchaId)
        let st2 := if fails = 1 then
            (redisExpire st1 ("captcha_fail:" ++ captchaId) 120).2
          else st1
        if fails ≥ 5 then
          (.locked fails,
            (redisDel st2 ["captcha:" ++ captchaId, "captcha_fail:" ++ captchaId]).2)
        else (.mismatch fails, st2)
      else
        (.ok,
          (redisDel st ["captcha:" ++ captchaId, "captcha_fail:" ++ captchaId]).2)

/-- Iterated verification attempts with one guess: the outcomes in order and
the final store. -/
def verifyTrace (id guess : String) : Nat → Store → List VerifyOutcome × Store
  | 0, st => ([], st)
  | n + 1, st =>
    ((verifyCaptcha id guess st).1 :: (verifyTrace id guess n (verifyCaptcha id guess st).2).1,
      (verifyTrace id guess n (verifyCaptcha id guess st).2).2)

theorem onData_fifo_correlation_witness :
    (onData ([5, 6].foldl rawCommandStep ⟨[], []⟩)
        [43, 79, 75, 13, 10, 58, 50, 13, 10]).2[1]?
      = some (6, .resolved (.int 2)) := by
  have hd : drain ([] ++ [43, 79, 75, 13, 10, 58, 50, 13, 10])
      = ([.str [79, 75], .int 2], []) := by
    show drain [43, 79, 75, 13, 10, 58, 50, 13, 10] = _
    rw [@drain_some [43, 79, 75, 13, 10, 58, 50, 13, 10] [58, 50, 13, 10] (.str [79, 75]) rfl]
    rw [@drain_some [58, 50, 13, 10] [] (.int 2) rfl]
    rw [@drain_none [] rfl]
  have hk2 : 1 < (drain ([] ++ [43, 79, 75, 13, 10, 58, 50, 13, 10])).1.length := by
    rw [hd]; decide
  have h := (onData_fifo_correlation [] [5, 6] [43, 79, 75, 13, 10, 58, 50, 13, 10]).2.2.2
    1 (by decide) hk2
  simp only [hd] at h
  rw [h]
  rfl

/-! ## Claim theorems for the rate limiter -/

/-- **C2.** Against the healthy store, `incrWithExpiry key w` (a) sets the
key's TTL to `w` exactly on the call that takes the counter from absent to 1;
(b) leaves a running TTL untouched on later increments within the window
(counter value ≥ 1, TTL > 0); (c) defensively re-arms a counter found with no
TTL, giving it TTL `w`; and (d) on any starting store it never leaves the
counter immortal: the key always ends up present with some TTL. -/
theorem incrWithExpiry_ttl_invariant (st : Store) (key : String) (w : Int)
    (hw : 0 < w) :
    (st key = none →
      incrWithExpiry (some storeClient) key w st
        = some (1, w, (st.upd key (some ⟨"1", none⟩)).upd key (some ⟨"1", some w⟩)))
    ∧ (∀ v t, st key = some ⟨v, some t⟩ → 0 < t → 1 ≤ (strToInt? v).getD 0 →
        incrWithExpiry (some storeClient) key w st
          = some ((strToInt? v).getD 0 + 1, t,
              st.upd key (some ⟨toString ((strToInt? v).getD 0 + 1), some t⟩)))
    ∧ (∀ v, st key = some ⟨v, none⟩ → 1 ≤ (strToInt? v).getD 0 →
        incrWithExpiry (some storeClient) key w st
          = some ((strToInt? v).getD 0 + 1, w,
              (st.upd key (some ⟨toString ((strToInt? v).getD 0 + 1), none⟩)).upd key
                (some ⟨toString ((strToInt? v).getD 0 + 1), some w⟩)))
    ∧ (∀ r, incrWithExpiry (some storeClient) key w st = some r →
        ((r.2.2 key).bind Entry.ttl).isSome) := by
  have hwn : ¬w ≤ 0 := by omega
  have hw' : ¬w < 0 := by omega
  refine ⟨?_, ?_, ?_, ?_⟩
  · intro h
    simp [incrWithExpiry, storeClient, redisIncr, redisExpire, redisTtl, h,
      Store.upd_same, hwn, hw, hw', Except.map]
  · intro v t h ht hv
    have hcount : ¬((strToInt? v).getD 0 + 1 = 1) := by omega
    have ht' : ¬(t < 0) := by omega
    simp [incrWithExpiry, storeClient, redisIncr, redisExpire, redisTtl, h,
      Store.upd_same, hcount, ht', Except.map]
  · intro v h hv
    have hcount : ¬((strToInt? v).getD 0 + 1 = 1) := by omega
    simp [incrWithExpiry, storeClient, redisIncr, redisExpire, redisTtl, h,
      Store.upd_same, hcount, hwn, hw', Except.map]
  · intro r hr
    cases hk : st key with
    | none =>
      simp [incrWithExpiry, storeClient, redisIncr, redisExpire, redisTtl, hk,
        Store.upd_same, hwn, hw, hw', Except.map] at hr
      subst hr
      simp [Store.upd_same]
    | some e =>
      obtain ⟨v, tt⟩ := e
      by_cases hcount : (strToInt? v).getD 0 + 1 = 1
      · cases tt with
        | none =>
          simp [incrWithExpiry, storeClient, redisIncr, redisExpire, redisTtl, hk,
            Store.upd_same, hcount, hwn, hw, hw', Except.map] at hr
          subst hr
          simp [Store.upd_same]
        | some t =>
          simp [incrWithExpiry, storeClient, redisIncr, redisExpire, redisTtl, hk,
            Store.upd_same, hcount, hwn, hw, hw', Except.map] at hr
          subst hr
          simp [Store.upd_same]
      · cases tt with
        | none =>
          simp [incrWithExpiry, storeClient, redisIncr, redisExpire, redisTtl, hk,
            Store.upd_same, hcount, hwn, hw', Except.map] at hr
          subst hr
          simp [Store.upd_same]
        | some t =>
          by_cases ht : t < 0
          · simp [incrWithExpiry, storeClient, redisIncr, redisExpire, redisTtl, hk,
              Store.upd_same, hcount, ht, hwn, Except.map] at hr
            subst hr
            simp [Store.upd_same]
          · simp [incrWithExpiry, storeClient, redisIncr, redisExpire, redisTtl, hk,
              Store.upd_same, hcount, ht, Except.map] at hr
            subst hr
            simp [Store.upd_same]

theorem incrWithExpiry_ttl_invariant_witness :
    (0 : Int) < 600
    ∧ incrWithExpiry (some storeClient) "rl:k" 600 emptyStore
        = some (1, 600, ((emptyStore.upd "rl:k" (some ⟨"1", none⟩)).upd "rl:k"
            (some ⟨"1", some 600⟩))) :=
  ⟨by decide,
    (incrWithExpiry_ttl_invariant emptyStore "rl:k" 600 (by decide)).1 rfl⟩

/-- **C4.** Rate limiting fails open.  `checkRateLimit` is a total function
into an option type, so it never throws; it returns the disabled outcome
(`none`) when the store is not configured, when the first store command of a
check fails, when a later command of a check fails, and when the client is
entirely unreachable; and `enforceRateLimitOrRespond` treats the disabled
outcome as allowing the request, sending nothing and adding no headers. -/
theorem rateLimit_fails_open :
    (∀ rule st, checkRateLimit none rule st = none)
    ∧ (∀ c rule st, c.incr rule.key st = .error () →
        checkRateLimit (some c) rule st = none)
    ∧ (∀ c rule st count st1, c.incr rule.key st = .ok (count, st1) → count ≠ 1 →
        c.ttl rule.key st1 = .error () → checkRateLimit (some c) rule st = none)
    ∧ (∀ rule st, checkRateLimit (some failClient) rule st = none)
    ∧ (∀ rule eh status msg st res,
        enforceRateLimitOrRespond none rule eh status msg st res = (true, res, st))
    ∧ (∀ rule eh status msg st res,
        enforceRateLimitOrRespond (some failClient) rule eh status msg st res
          = (true, res, st)) := by
  have hfail : ∀ rule st, checkRateLimit (some failClient) rule st = none := by
    intro rule st
    simp [checkRateLimit, incrWithExpiry, failClient]
  refine ⟨?_, ?_, ?_, hfail, ?_, ?_⟩
  · intro rule st
    simp [checkRateLimit, incrWithExpiry]
  · intro c rule st h
    simp [checkRateLimit, incrWithExpiry, h]
  · intro c rule st count st1 h1 hcount h2
    simp [checkRateLimit, incrWithExpiry, h1, hcount, h2]
  · intro rule eh status msg st res
    simp [enforceRateLimitOrRespond, checkRateLimit, incrWithExpiry]
  · intro rule eh status msg st res
    simp [enforceRateLimitOrRespond, hfail]

theorem rateLimit_fails_open_witness :
    checkRateLimit (some failClient) ⟨"rl:w", 3, 60⟩ emptyStore = none
    ∧ enforceRateLimitOrRespond none ⟨"rl:w", 3, 60⟩ true 429 "busy" emptyStore
        ⟨[], none⟩ = (true, ⟨[], none⟩, emptyStore)
    ∧ checkRateLimit (some failClient) ⟨"rl:w2", 3, 60⟩ emptyStore = none :=
  ⟨rateLimit_fails_open.2.2.2.1 ⟨"rl:w", 3, 60⟩ emptyStore,
    rateLimit_fails_open.2.2.2.2.1 ⟨"rl:w", 3, 60⟩ true 429 "busy" emptyStore ⟨[], none⟩,
    rateLimit_fails_open.2.1 failClient ⟨"rl:w2", 3, 60⟩ emptyStore rfl⟩

/-! ## Claim theorems for the captcha token store -/

theorem captchaKeys_ne (id : String) :
    ("captcha:" ++ id) ≠ ("captcha_fail:" ++ id) := by
  intro h
  have hlen := congrArg String.length h
  rw [String.length_append, String.length_append] at hlen
  have h1 : ("captcha:" : String).length = 8 := rfl
  have h2 : ("captcha_fail:" : String).length = 13 := rfl
  omega

/-- A verify against a missing (or already consumed) code record reports
expired and performs no store writes. -/
theorem verify_expired {id guess : String} (st : Store) (hid : id ≠ "")
    (hg : guess ≠ "") (h : st ("captcha:" ++ id) = none) :
    verifyCaptcha id guess st = (.expired, st) := by
  simp [verifyCaptcha, redisGet, h, hid, hg]

/-- A verify with the correct guess deletes both records and succeeds. -/
theorem verify_ok {id code : String} (st : Store) {ct : Option Int}
    (hid : id ≠ "") (hcode : code ≠ "")
    (hck : st ("captcha:" ++ id) = some ⟨code, ct⟩) :
    verifyCaptcha id code st
      = (.ok, (st.upd ("captcha:" ++ id) none).upd ("captcha_fail:" ++ id) none) := by
  simp [verifyCaptcha, redisGet, redisDel, hck, hid, hcode]

/-- The first wrong guess: the mismatch counter is created (value 1) and then
armed with the fixed TTL of 120 seconds. -/
theorem verify_wrong_first {id code guess : String} (st : Store) {ct : Option Int}
    (hid : id ≠ "") (hg : guess ≠ "") (hcode : code ≠ "") (hne : code ≠ guess)
    (hck : st ("captcha:" ++ id) = some ⟨code, ct⟩)
    (hfk : st ("captcha_fail:" ++ id) = none) :
    verifyCaptcha id guess st
      = (.mismatch 1,
          (st.upd ("captcha_fail:" ++ id) (some ⟨"1", none⟩)).upd
            ("captcha_fail:" ++ id) (some ⟨"1", some 120⟩)) := by
  simp [verifyCaptcha, redisGet, redisIncr, redisExpire, hck, hfk, hid, hg, hcode,
    hne, Store.upd_same]

/-- A later wrong guess below the ceiling: the counter is incremented in
place, keeping whatever TTL it has. -/
theorem verify_wrong_later {id code guess : String} (st : Store) {ct t : Option Int}
    {v : String}
    (hid : id ≠ "") (hg : guess ≠ "") (hcode : code ≠ "") (hne : code ≠ guess)
    (hck : st ("captcha:" ++ id) = some ⟨code, ct⟩)
    (hfk : st ("captcha_fail:" ++ id) = some ⟨v, t⟩)
    (h1 : (strToInt? v).getD 0 + 1 ≠ 1) (h5 : ¬(strToInt? v).getD 0 + 1 ≥ 5) :
    verifyCaptcha id guess st
      = (.mismatch ((strToInt? v).getD 0 + 1),
          st.upd ("captcha_fail:" ++ id)
            (some ⟨toString ((strToInt? v).getD 0 + 1), t⟩)) := by
  simp [verifyCaptcha, redisGet, redisIncr, redisExpire, hck, hfk, hid, hg, hcode,
    hne, h1, h5, Store.upd_same]

/-- The wrong guess that reaches the ceiling: both records are deleted
(lockout). -/
theorem verify_wrong_lock {id code guess : String} (st : Store) {ct t : Option Int}
    {v : String}
    (hid : id ≠ "") (hg : guess ≠ "") (hcode : code ≠ "") (hne : code ≠ guess)
    (hck : st ("captcha:" ++ id) = some ⟨code, ct⟩)
    (hfk : st ("captcha_fail:" ++ id) = some ⟨v, t⟩)
    (h1 : (strToInt? v).getD 0 + 1 ≠ 1) (h5 : (strToInt? v).getD 0 + 1 ≥ 5) :
    verifyCaptcha id guess st
      = (.locked ((strToInt? v).getD 0 + 1),
          ((st.upd ("captcha_fail:" ++ id)
              (some ⟨toString ((strToInt? v).getD 0 + 1), t⟩)).upd
            ("captcha:" ++ id) none).upd ("captcha_fail:" ++ id) none) := by
  simp [verifyCaptcha, redisGet, redisIncr, redisExpire, redisDel, hck, hfk, hid,
    hg, hcode, hne, h1, h5, Store.upd_same]

/-- **C3.** Lifecycle of one issued captcha token.  A verify with the correct
guess deletes both the code record and the mismatch counter and succeeds, and
a second verify with the same token then reports expired (single use).  Five
consecutive wrong guesses report mismatch (1/5 … 4/5) on the first four, then
lockout on the fifth with both records deleted, and a sixth call reports
expired. -/
theorem captcha_token_lifecycle (id code guess : String) (st : Store)
    (hid : id ≠ "") (hcode : code ≠ "") (hg : guess ≠ "") (hne : code ≠ guess)
    (hfail : st ("captcha_fail:" ++ id) = none) :
    (verifyCaptcha id code (issueCaptcha id code st)).1 = .ok
    ∧ (verifyCaptcha id code (issueCaptcha id code st)).2 ("captcha:" ++ id) = none
    ∧ (verifyCaptcha id code (issueCaptcha id code st)).2 ("captcha_fail:" ++ id) = none
    ∧ (verifyCaptcha id code
        ((verifyCaptcha id code (issueCaptcha id code st)).2)).1 = .expired
    ∧ (verifyTrace id guess 5 (issueCaptcha id code st)).1
        = [.mismatch 1, .mismatch 2, .mismatch 3, .mismatch 4, .locked 5]
    ∧ (verifyTrace id guess 5 (issueCaptcha id code st)).2 ("captcha:" ++ id) = none
    ∧ (verifyTrace id guess 5 (issueCaptcha id code st)).2 ("captcha_fail:" ++ id) = none
    ∧ (verifyCaptcha id guess
        ((verifyTrace id guess 5 (issueCaptcha id code st)).2)).1 = .expired := by
  have hkne : ("captcha:" ++ id) ≠ ("captcha_fail:" ++ id) := captchaKeys_ne id
  have hkne' : ("captcha_fail:" ++ id) ≠ ("captcha:" ++ id) := hkne.symm
  have h0c : issueCaptcha id code st ("captcha:" ++ id) = some ⟨code, some 120⟩ := by
    show st.upd ("captcha:" ++ id) (some ⟨code, some 120⟩) ("captcha:" ++ id) = _
    exact Store.upd_same ..
  have h0f : issueCaptcha id code st ("captcha_fail:" ++ id) = none := by
    show st.upd ("captcha:" ++ id) (some ⟨code, some 120⟩) ("captcha_fail:" ++ id) = _
    rw [Store.upd_other _ _ _ hkne']
    exact hfail
  -- success path
  have e_ok := verify_ok (issueCaptcha id code st) hid hcode h0c
  have hokc : ((issueCaptcha id code st).upd ("captcha:" ++ id) none).upd
      ("captcha_fail:" ++ id) none ("captcha:" ++ id) = none :=
    (Store.upd_other _ _ _ hkne).trans (Store.upd_same ..)
  have hokf : ((issueCaptcha id code st).upd ("captcha:" ++ id) none).upd
      ("captcha_fail:" ++ id) none ("captcha_fail:" ++ id) = none := Store.upd_same ..
  -- the five wrong guesses
  have e1 := verify_wrong_first (issueCaptcha id code st) hid hg hcode hne h0c h0f
  set s1 := ((issueCaptcha id code st).upd ("captcha_fail:" ++ id)
      (some ⟨"1", none⟩)).upd ("captcha_fail:" ++ id) (some ⟨"1", some 120⟩) with hs1def
  have h1c : s1 ("captcha:" ++ id) = some ⟨code, some 120⟩ := by
    rw [hs1def, Store.upd_other _ _ _ hkne, Store.upd_other _ _ _ hkne]
    exact h0c
  have h1f : s1 ("captcha_fail:" ++ id) = some ⟨"1", some 120⟩ := Store.upd_same ..
  have e2 := verify_wrong_later s1 hid hg hcode hne h1c h1f (by decide) (by decide)
  rw [show (strToInt? "1").getD 0 + 1 = 2 from by decide] at e2
  rw [show toString (2 : Int) = "2" from rfl] at e2
  set s2 := s1.upd ("captcha_fail:" ++ id) (some ⟨"2", some 120⟩) with hs2def
  have h2c : s2 ("captcha:" ++ id) = some ⟨code, some 120⟩ := by
    rw [hs2def, Store.upd_other _ _ _ hkne]
    exact h1c
  have h2f : s2 ("captcha_fail:" ++ id) = some ⟨"2", some 120⟩ := Store.upd_same ..
  have e3 := verify_wrong_later s2 hid hg hcode hne h2c h2f (by decide) (by decide)
  rw [show (strToInt? "2").getD 0 + 1 = 3 from by decide] at e3
  rw [show toString (3 : Int) = "3" from rfl] at e3
  set s3 := s2.upd ("captcha_fail:" ++ id) (some ⟨"3", some 120⟩) with hs3def
  have h3c : s3 ("captcha:" ++ id) = some ⟨code, some 120⟩ := by
    rw [hs3def, Store.upd_other _ _ _ hkne]
    exact h2c
  have h3f : s3 ("captcha_fail:" ++ id) = some ⟨"3", some 120⟩ := Store.upd_same ..
  have e4 := verify_wrong_later s3 hid hg hcode hne h3c h3f (by decide) (by decide)
  rw [show (strToInt? "3").getD 0 + 1 = 4 from by decide] at e4
  rw [show toString (4 : Int) = "4" from rfl] at e4
  set s4 := s3.upd ("captcha_fail:" ++ id) (some ⟨"4", some 120⟩) with hs4def
  have h4c : s4 ("captcha:" ++ id) = some ⟨code, some 120⟩ := by
    rw [hs4def, Store.upd_other _ _ _ hkne]
    exact h3c
  have h4f : s4 ("captcha_fail:" ++ id) = some ⟨"4", some 120⟩ := Store.upd_same ..
  have e5 := verify_wrong_lock s4 hid hg hcode hne h4c h4f (by decide) (by decide)
  rw [show (strToInt? "4").getD 0 + 1 = 5 from by decide] at e5
  rw [show toString (5 : Int) = "5" from rfl] at e5
  set s5 := ((s4.upd ("captcha_fail:" ++ id) (some ⟨"5", some 120⟩)).upd
      ("captcha:" ++ id) none).upd ("captcha_fail:" ++ id) none with hs5def
  have h5f : s5 ("captcha_fail:" ++ id) = none := Store.upd_same ..
  have h5c : s5 ("captcha:" ++ id) = none := by
    rw [hs5def, Store.upd_other _ _ _ hkne]
    exact Store.upd_same ..
  have htr : verifyTrace id guess 5 (issueCaptcha id code st)
      = ([.mismatch 1, .mismatch 2, .mismatch 3, .mismatch 4, .locked 5], s5) := by
    simp only [verifyTrace, e1, e2, e3, e4, e5]
  refine ⟨?_, ?_, ?_, ?_, ?_, ?_, ?_, ?_⟩
  · rw [e_ok]
  · rw [e_ok]
    exact hokc
  · rw [e_ok]
    exact hokf
  · rw [e_ok]
    rw [verify_expired _ hid hcode hokc]
  · rw [htr]
  · rw [htr]
    exact h5c
  · rw [htr]
    exact h5f
  · rw [htr]
    rw [verify_expired _ hid hg h5c]

theorem captcha_token_lifecycle_witness :
    ("i" : String) ≠ "" ∧ ("1234" : String) ≠ "" ∧ ("0" : String) ≠ ""
    ∧ ("1234" : String) ≠ "0"
    ∧ (verifyCaptcha "i" "1234" (issueCaptcha "i" "1234" emptyStore)).1 = .ok
    ∧ (verifyTrace "i" "0" 5 (issueCaptcha "i" "1234" emptyStore)).1
        = [.mismatch 1, .mismatch 2, .mismatch 3, .mismatch 4, .locked 5] := by
  have h := captcha_token_lifecycle "i" "1234" "0" emptyStore (by decide) (by decide)
    (by decide) (by decide) rfl
  exact ⟨by decide, by decide, by decide, by decide, h.1, h.2.2.2.2.1⟩

/-- **C9 (counterexample).** The claim says the mismatch counter is created
with a TTL equal to the code record's remaining validity window.  It is not:
50 seconds after issuance the code's remaining validity is 70 seconds, yet the
first wrong guess creates the counter with TTL 120 (the fixed constant in the
handler), which exceeds the code's remaining life. -/
theorem mismatch_ttl_not_remaining_counterexample :
    ((tickN 50 (issueCaptcha "i" "1234" emptyStore)) ("captcha:" ++ "i")).map Entry.ttl
      = some (some 70)
    ∧ (((verifyCaptcha "i" "0" (tickN 50 (issueCaptcha "i" "1234" emptyStore))).2)
        ("captcha_fail:" ++ "i")).map Entry.ttl = some (some 120)
    ∧ ¬(120 : Int) = 70 := by
  refine ⟨by decide, by decide, by decide⟩

/-- **C9 (amended).** The mismatch counter is created on the first wrong
guess with the fixed TTL of 120 seconds — the same constant used at issuance —
regardless of the code record's remaining validity window. -/
theorem mismatch_counter_fixed_ttl (id code guess : String) (st : Store)
    (ct : Option Int)
    (hid : id ≠ "") (hcode : code ≠ "") (hg : guess ≠ "") (hne : code ≠ guess)
    (hck : st ("captcha:" ++ id) = some ⟨code, ct⟩)
    (hfk : st ("captcha_fail:" ++ id) = none) :
    (verifyCaptcha id guess st).1 = .mismatch 1
    ∧ (verifyCaptcha id guess st).2 ("captcha_fail:" ++ id)
        = some ⟨"1", some 120⟩ := by
  rw [verify_wrong_first st hid hg hcode hne hck hfk]
  exact ⟨rfl, Store.upd_same ..⟩

theorem mismatch_counter_fixed_ttl_witness :
    (verifyCaptcha "j" "9" (tickN 50 (issueCaptcha "j" "1234" emptyStore))).2
        ("captcha_fail:" ++ "j") = some ⟨"1", some 120⟩ :=
  (mismatch_counter_fixed_ttl "j" "1234" "9"
    (tickN 50 (issueCaptcha "j" "1234" emptyStore)) (some 70)
    (by decide) (by decide) (by decide) (by decide) (by decide) (by decide)).2

/-! ## Connection teardown and reconnection -/

/-- The lifecycle of the `connecting` promise created by `ensureConnected`
(source lines 252–282).  `idle` is `connecting === null`; after
`this.connecting = new Promise(...)` runs, the promise is `preConnect`
until the socket's `connect` event fires; the `once('connect')` callback
then performs the AUTH/SELECT handshake — `handshake job` records the
identifier of the in-flight `rawCommand` request the callback is awaiting
(pushed onto `pending` by source line 292) — and only its `resolve()` /
`reject(e)` (lines 274, 277) moves the promise to `settled`.  Until then
every `await ensureConnected()` waiter is unsettled. -/
inductive ConnPhase where
  | idle
  | preConnect
  | handshake (job : Nat)
  | settled
deriving DecidableEq, Repr

/-- `this.connecting` is non-null (`if (this.connecting) return this.connecting`). -/
def ConnPhase.connectingSome : ConnPhase → Bool
  | .idle => false
  | _ => true

/-- The connect promise exists and its waiters are still unsettled. -/
def ConnPhase.unsettled : ConnPhase → Prop
  | .preConnect => True
  | .handshake _ => True
  | _ => False

instance (p : ConnPhase) : Decidable p.unsettled := by
  unfold ConnPhase.unsettled; cases p <;> infer_instance

/-- The `RedisLite` mutable state relevant to teardown (source lines
215–218): the socket handle, the decode buffer, the pending-request queue
and the connect promise with its phase. -/
structure RedisLiteState where
  socketAlive : Bool
  buffer : List Nat
  pending : List Nat
  phase : ConnPhase
deriving DecidableEq, Repr

/-- Embeds `RedisLite.onCloseOrError` (source lines 237–246): the socket
handle, decode buffer, pending queue and connect promise are all reset
(`this.connecting = null` puts the phase back to `idle`), and every popped
pending request is rejected with the connection-lost error. -/
def onCloseOrError (st : RedisLiteState) : RedisLiteState × List Nat :=
  (⟨false, [], [], .idle⟩, st.pending)

inductive SocketEvent where
  | errorEv
  | closeEv
deriving DecidableEq, Repr

/-- The socket event handlers installed by `ensureConnected` (source lines
256–263): both run `onCloseOrError`.  Returns the new state, the rejected
pending requests, and whether the connect waiters end up rejected:

* on `error` the handler itself calls `reject(e)` (line 259), which settles
  the promise exactly when it was still unsettled (on a settled promise
  `reject` is a no-op, and in `idle` there is no promise);
* on `close` the handler does not touch the promise directly, but during the
  handshake `onCloseOrError` has just rejected the pending AUTH/SELECT
  request `job`, so the `await this.rawCommand(...)` inside the
  `once('connect')` callback throws and its `catch (e)` (lines 275–278)
  calls `reject(e)` — the connect waiters are rejected through that cascade
  whenever the handshake job was still in the queue. -/
def handleSocketEvent (ev : SocketEvent) (st : RedisLiteState) :
    RedisLiteState × List Nat × Bool :=
  match ev with
  | .errorEv =>
    ((onCloseOrError st).1, (onCloseOrError st).2, decide st.phase.unsettled)
  | .closeEv =>
    ((onCloseOrError st).1, (onCloseOrError st).2,
      match st.phase with
      | .handshake job => decide (job ∈ st.pending)
      | _ => false)

inductive ConnectAction where
  | alreadyConnected
  | awaitExisting
  | startNew
deriving DecidableEq, Repr

/-- The dispatch at the top of `ensureConnected` (source lines 249–252): a
live socket returns immediately, an in-flight connect promise is awaited,
otherwise a fresh connection attempt starts. -/
def ensureConnectedAction (st : RedisLiteState) : ConnectAction :=
  if st.socketAlive then .alreadyConnected
  else if st.phase.connectingSome then .awaitExisting
  else .startNew

/-- **C8.** On socket error or close, every still-pending pipelined request
is rejected with the connection-lost error; in-flight connect waiters are
rejected as well — directly by the error handler's `reject(e)`, or, for a
close during the AUTH/SELECT handshake, through the rejection of the
handshake's pending request and the `catch` in the `connect` callback — and
the internal state (decode buffer, pending queue, socket handle, connect
promise) is reset so that the next `ensureConnected` call starts a fresh
connection attempt.  Hypotheses: a handshake-phase state has its AUTH/SELECT
request in the pending queue (it was pushed there by `rawCommand` and only
its reply or a teardown removes it), and a connection loss before the
`connect` event is delivered as an `error` event, as Node guarantees for
failed connection attempts. -/
theorem teardown_rejects_and_resets (ev : SocketEvent) (st : RedisLiteState)
    (hhs : ∀ j, st.phase = .handshake j → j ∈ st.pending)
    (hpre : st.phase = .preConnect → ev = .errorEv) :
    (handleSocketEvent ev st).2.1 = st.pending
    ∧ (st.phase.unsettled → (handleSocketEvent ev st).2.2 = true)
    ∧ (handleSocketEvent ev st).1 = ⟨false, [], [], .idle⟩
    ∧ ensureConnectedAction (handleSocketEvent ev st).1 = .startNew := by
  refine ⟨?_, ?_, ?_, ?_⟩
  · cases ev <;> rfl
  · intro hu
    cases ev with
    | errorEv =>
      show decide st.phase.unsettled = true
      exact decide_eq_true hu
    | closeEv =>
      cases hp : st.phase with
      | idle => rw [hp] at hu; exact absurd hu (by simp [ConnPhase.unsettled])
      | settled => rw [hp] at hu; exact absurd hu (by simp [ConnPhase.unsettled])
      | preConnect => exact absurd (hpre hp) (by simp)
      | handshake j =>
        show (match st.phase with
          | .handshake job => decide (job ∈ st.pending)
          | _ => false) = true
        rw [hp]
        exact decide_eq_true (hhs j hp)
  · cases ev <;> rfl
  · cases ev <;> rfl

theorem teardown_rejects_and_resets_witness :
    (handleSocketEvent .closeEv ⟨true, [1, 2], [8, 9], .handshake 9⟩).2.1 = [8, 9]
    ∧ (handleSocketEvent .closeEv ⟨true, [1, 2], [8, 9], .handshake 9⟩).2.2 = true
    ∧ ensureConnectedAction
        (handleSocketEvent .closeEv ⟨true, [1, 2], [8, 9], .handshake 9⟩).1
        = .startNew := by
  have h := teardown_rejects_and_resets .closeEv ⟨true, [1, 2], [8, 9], .handshake 9⟩
    (by intro j hj; injection hj with hj9; subst hj9; decide)
    (by intro hp; exact absurd hp (by decide))
  exact ⟨h.1, h.2.1 (by decide), h.2.2.2⟩


/-! ## Typed command wrappers -/

/-- Delivery of a decoded reply to the promise returned by
`RedisLite.rawCommand` (source lines 230–233): an error reply rejects — the
caller's `await` throws — and any other value resolves. -/
def deliver (v : RespValue) : Except (List Nat) RespValue :=
  match v with
  | .err m => .error m
  | v => .ok v

/-- `RedisLite.get` (source lines 297–300): `typeof v === "string" ? v :
null`. -/
def getMethod (reply : RespValue) : Except (List Nat) (Option (List Nat)) :=
  (deliver reply).map fun v => match v with | .str s => some s | _ => none

/-- `RedisLite.set` (source lines 302–307): same conversion as `get`. -/
def setMethod (reply : RespValue) : Except (List Nat) (Option (List Nat)) :=
  (deliver reply).map fun v => match v with | .str s => some s | _ => none

/-- `RedisLite.del` (source lines 309–312): `typeof v === "number" ? v : 0`. -/
def delMethod (reply : RespValue) : Except (List Nat) ℚ :=
  (deliver reply).map fun v => match v with | .int n => n | _ => 0

/-- `RedisLite.incr` (source lines 314–317). -/
def incrMethod (reply : RespValue) : Except (List Nat) ℚ :=
  (deliver reply).map fun v => match v with | .int n => n | _ => 0

/-- `RedisLite.expire` (source lines 319–322). -/
def expireMethod (reply : RespValue) : Except (List Nat) ℚ :=
  (deliver reply).map fun v => match v with | .int n => n | _ => 0

/-- `RedisLite.ttl` (source lines 324–327): `typeof v === "number" ? v :
-2`. -/
def ttlMethod (reply : RespValue) : Except (List Nat) ℚ :=
  (deliver reply).map fun v => match v with | .int n => n | _ => -2

/-- **C10.** For every reply that is neither an error reply nor of the type
the command expects, each typed client method returns its fixed default
instead of failing: `get` and `set` return null for non-string replies;
`del`, `incr` and `expire` return 0 and `ttl` returns −2 for non-integer
replies; and only error replies reject the caller. -/
theorem typed_method_defaults (v : RespValue) :
    ((∀ s, v ≠ .str s) → (∀ m, v ≠ .err m) →
      getMethod v = .ok none ∧ setMethod v = .ok none)
    ∧ ((∀ n, v ≠ .int n) → (∀ m, v ≠ .err m) →
      delMethod v = .ok 0 ∧ incrMethod v = .ok 0 ∧ expireMethod v = .ok 0
        ∧ ttlMethod v = .ok (-2))
    ∧ (∀ m, v = .err m →
      getMethod v = .error m ∧ setMethod v = .error m ∧ delMethod v = .error m
        ∧ incrMethod v = .error m ∧ expireMethod v = .error m
        ∧ ttlMethod v = .error m) := by
  refine ⟨?_, ?_, ?_⟩
  · intro hs he
    cases v with
    | str s => exact absurd rfl (hs s)
    | err m => exact absurd rfl (he m)
    | int n => exact ⟨rfl, rfl⟩
    | nil => exact ⟨rfl, rfl⟩
    | arr l => exact ⟨rfl, rfl⟩
  · intro hn he
    cases v with
    | int n => exact absurd rfl (hn n)
    | err m => exact absurd rfl (he m)
    | str s => exact ⟨rfl, rfl, rfl, rfl⟩
    | nil => exact ⟨rfl, rfl, rfl, rfl⟩
    | arr l => exact ⟨rfl, rfl, rfl, rfl⟩
  · intro m hm
    subst hm
    exact ⟨rfl, rfl, rfl, rfl, rfl, rfl⟩

theorem typed_method_defaults_witness :
    getMethod .nil = .ok none
    ∧ ttlMethod (.arr []) = .ok (-2)
    ∧ getMethod (.err [65]) = .error [65] :=
  ⟨((typed_method_defaults .nil).1 (fun s => by simp) (fun m => by simp)).1,
    ((typed_method_defaults (.arr [])).2.1 (fun n => by simp)
      (fun m => by simp)).2.2.2,
    ((typed_method_defaults (.err [65])).2.2 [65] rfl).1⟩

end RiseWeb
